import Mathlib

/-!
Verification development for the storage-diagnostics module of the PcInfo
repository (src/storage_diagnostics.py).

The Python source is shallowly embedded: text is modelled as bare character
lists (Str), each compiled regular expression of the source is modelled by a
dedicated scanning function implementing that pattern's Python `re` semantics
(leftmost search, greedy / non-greedy repetition with the backtracking
behaviour the specific pattern exhibits, `re.DOTALL` / `re.IGNORECASE` /
`re.MULTILINE` as compiled), and the effectful orchestration function
`get_CrystalDiskInfo_log` is modelled as a pure function over an explicit
environment describing the outside world, returning a trace of its observable
effects.

Modelling conventions, stated once:
* Python `\s` and `str.strip()` target Unicode whitespace; the source's texts
  are ASCII-plus-Japanese with only ASCII whitespace, so whitespace is
  modelled as the ASCII set [' ', '\t', '\n', '\r', '\x0b', '\x0c'].
* Python `\d` targets Unicode decimal digits; modelled as ASCII '0'..'9'.
* Python `str.lower()` is modelled as ASCII lowering (process names are
  ASCII).
* Wall-clock time in the completion-wait loop is idealized: checks are
  instantaneous and each `time.sleep(0.5)` advances time by exactly half a
  second, so elapsed time after k sleeps is k/2 seconds.
-/

/-- Text is a bare list of characters. -/
abbrev Str := List Char

/-- ASCII whitespace as matched by Python's regex class \s and stripped by
str.strip() on the ASCII range. -/
def isPySpace (c : Char) : Bool :=
  c == ' ' || c == '\t' || c == '\n' || c == '\r' || c == '\x0b' || c == '\x0c'

/-- ASCII decimal digit, the model of the regex class \d. -/
def isPyDigit (c : Char) : Bool :=
  '0' ≤ c && c ≤ '9'

/-- ASCII lowering of one character, the model of str.lower(). -/
def pyLowerChar (c : Char) : Char :=
  if 'A' ≤ c ∧ c ≤ 'Z' then Char.ofNat (c.toNat + 32) else c

/-- ASCII lowering of a text, the model of str.lower(). -/
def pyLower (s : Str) : Str :=
  s.map pyLowerChar

/-- Drop leading Python whitespace (the left half of str.strip()). -/
def pyDropLead (s : Str) : Str :=
  s.dropWhile isPySpace

/-- Drop trailing Python whitespace (the right half of str.strip()). -/
def pyDropTrail (s : Str) : Str :=
  (s.reverse.dropWhile isPySpace).reverse

/-- Model of Python str.strip(): remove leading and trailing whitespace. -/
def pyStrip (s : Str) : Str :=
  pyDropTrail (pyDropLead s)

/-- Model of str.replace(",", ""): delete every comma. -/
def removeCommas (s : Str) : Str :=
  s.filter (fun c => c ≠ ',')

/-- Split a text on newline characters, the model of str.split("\n"):
"a\nb" becomes ["a", "b"], and the empty text becomes [""]. -/
def splitOnNl (s : Str) : List Str :=
  match s with
  | [] => [[]]
  | c :: t =>
    if c = '\n' then [] :: splitOnNl t
    else
      match splitOnNl t with
      | [] => [[c]]
      | l :: ls => (c :: l) :: ls

/-- Split at the first colon, the model of str.split(":", 1) when a colon is
present: returns the part before the first ':' and the part after it. -/
def splitFirstColon (s : Str) : Str × Str :=
  match s with
  | [] => ([], [])
  | c :: t =>
    if c = ':' then ([], t)
    else
      let p := splitFirstColon t
      (c :: p.1, p.2)

/-- Strip a literal from the front of a text: returns the remainder when the
literal is an exact (case-sensitive) syntactic head, none otherwise. -/
def stripLit (lit s : Str) : Option Str :=
  match lit, s with
  | [], s => some s
  | _ :: _, [] => none
  | c :: cs, a :: s => if a = c then stripLit cs s else none

/-- Strip a literal from the front of a text comparing case-insensitively
(ASCII), the model of matching a literal under re.IGNORECASE. -/
def stripCaselessLit (lit s : Str) : Option Str :=
  match lit, s with
  | [], s => some s
  | _ :: _, [] => none
  | c :: cs, a :: s => if pyLowerChar a = pyLowerChar c then stripCaselessLit cs s else none

/-- Decimal digit character for a value below ten. -/
def digitChar (n : Nat) : Char :=
  if n = 0 then '0' else if n = 1 then '1' else if n = 2 then '2'
  else if n = 3 then '3' else if n = 4 then '4' else if n = 5 then '5'
  else if n = 6 then '6' else if n = 7 then '7' else if n = 8 then '8'
  else '9'

/-- Decimal digit string of a natural number, the model of Python str(n). -/
def natDigits (n : Nat) : Str :=
  if _h : n < 10 then [digitChar n]
  else natDigits (n / 10) ++ [digitChar (n % 10)]
termination_by n
decreasing_by
  exact Nat.div_lt_self (by omega) (by decide)

/-- First occurrence split: when the pattern occurs as a contiguous
subsequence, returns the text before the first occurrence and the text after
it; none when no occurrence exists. -/
def splitAtSub (pat s : Str) : Option (Str × Str) :=
  match stripLit pat s with
  | some rest => some ([], rest)
  | none =>
    match s with
    | [] => none
    | c :: t =>
      match splitAtSub pat t with
      | none => none
      | some p => some (c :: p.1, p.2)

/-- Index of the first occurrence of the pattern at or after a start offset. -/
def subIdxFrom (pat s : Str) (start : Nat) : Option Nat :=
  match splitAtSub pat (s.drop start) with
  | none => none
  | some p => some (start + p.1.length)

/-!
Pattern literals of the compiled regular expressions DISK_LIST_PATTERN,
DISK_ENTRY_PATTERN, DISK_SECTION_PATTERN and DISK_INFO_PATTERN.
-/

/-- Opening banner of the disk-list section ("-- Disk List " and 63 dashes),
the leading literal of DISK_LIST_PATTERN. -/
def diskListBanner : Str :=
  "-- Disk List ---------------------------------------------------------------".toList

/-- The 76-dash separator banner used by DISK_LIST_PATTERN and
DISK_SECTION_PATTERN. -/
def sepBanner : Str :=
  "----------------------------------------------------------------------------".toList

/-- Newline followed by the separator banner. -/
def nlSep : Str := '\n' :: sepBanner

/-- Newline, separator banner, newline: the banner line delimiter inside
DISK_SECTION_PATTERN. -/
def nlSepNl : Str := '\n' :: sepBanner ++ ['\n']

/-- The trailing literal "\n-- S\.M\.A\.R\.T\." of DISK_SECTION_PATTERN. -/
def smartMarker : Str := "\n-- S.M.A.R.T.".toList

/-- Model of DISK_LIST_PATTERN.search: the pattern is the disk-list banner,
newline, a non-greedy DOTALL capture, newline and the separator banner.
Leftmost search with a non-greedy capture takes the text between the first
occurrence of the opening banner line and the first subsequent occurrence of
a newline followed by the separator banner (if the first opening-banner
occurrence is followed by no closing banner then neither is any later one, so
the search fails). -/
def disk_list_search (s : Str) : Option Str :=
  match splitAtSub (diskListBanner ++ ['\n']) s with
  | none => none
  | some p =>
    match splitAtSub nlSep p.2 with
    | none => none
    | some q => some q.1

/-- One match attempt of DISK_ENTRY_PATTERN, the pattern \((\d+)\)\s+(.+),
anchored at the head of the text: literal '(', one or more digits (group 1),
literal ')', one or more whitespace characters, then one or more non-newline
characters (group 2, greedy).  When the text ends right after the whitespace
run, the greedy \s+ backs off one character so that .+ can capture the final
whitespace character, provided that character is not a newline and at least
one whitespace character remains for \s+.  Returns the two groups and the
text after the match. -/
def matchEntryAt (s : Str) : Option ((Str × Str) × Str) :=
  match s with
  | '(' :: t =>
    let d := t.takeWhile isPyDigit
    if d.isEmpty then none else
    match t.drop d.length with
    | ')' :: u =>
      let w := u.takeWhile isPySpace
      if w.isEmpty then none else
      match u.dropWhile isPySpace with
      | [] =>
        match w.reverse with
        | lc :: _ :: _ => if lc = '\n' then none else some ((d, [lc]), [])
        | _ => none
      | c :: r =>
        some ((d, (c :: r).takeWhile (fun x => x ≠ '\n')),
              (c :: r).dropWhile (fun x => x ≠ '\n'))
    | _ => none
  | _ => none

/-- Fuel-driven scan for DISK_ENTRY_PATTERN.findall: try a match at every
position from left to right, emitting group pairs of non-overlapping matches
and resuming after each match end.  The fuel is the text length, which
suffices because every step consumes at least one character. -/
def entriesFindallAux : Nat → Str → List (Str × Str)
  | 0, _ => []
  | fuel + 1, s =>
    match matchEntryAt s with
    | some (g, rest) => g :: entriesFindallAux fuel rest
    | none =>
      match s with
      | [] => []
      | _ :: t => entriesFindallAux fuel t

/-- Model of DISK_ENTRY_PATTERN.findall. -/
def disk_entries_findall (s : Str) : List (Str × Str) :=
  entriesFindallAux s.length s

/-- One match attempt of DISK_SECTION_PATTERN anchored at the head of the
text.  The pattern (compiled with re.DOTALL) is: separator banner, newline,
\s*, '(', digits, ')', \s+, a non-greedy .+? run, newline + separator banner
+ newline, the non-greedy DOTALL capture (.*?), then the literal
"\n-- S\.M\.A\.R\.T\.".  With m the maximal whitespace run after ')', the
greedy \s+ combined with the non-greedy .+? selects the first occurrence of
the banner delimiter at offset at least m + 1; an occurrence can otherwise
only sit at offset m - 1 (its newline being the run's last character), which
is reachable by backing \s+ off two characters and needs m at least 3.
Returns the capture and the text after the match. -/
def matchSectionAt (s : Str) : Option (Str × Str) :=
  match stripLit (sepBanner ++ ['\n']) s with
  | none => none
  | some s1 =>
    match s1.drop (s1.takeWhile isPySpace).length with
    | '(' :: t =>
      let d := t.takeWhile isPyDigit
      if d.isEmpty then none else
      match t.drop d.length with
      | ')' :: u =>
        let m := (u.takeWhile isPySpace).length
        if m = 0 then none else
        let q :=
          match subIdxFrom nlSepNl u (m + 1) with
          | some i => some i
          | none =>
            if 3 ≤ m ∧ (stripLit nlSepNl (u.drop (m - 1))).isSome
            then some (m - 1) else none
        match q with
        | none => none
        | some i =>
          match splitAtSub smartMarker (u.drop (i + nlSepNl.length)) with
          | none => none
          | some p => some p
      | _ => none
    | _ => none

/-- Fuel-driven scan for DISK_SECTION_PATTERN.findall, analogous to the
entry scan. -/
def sectionsFindallAux : Nat → Str → List Str
  | 0, _ => []
  | fuel + 1, s =>
    match matchSectionAt s with
    | some (cap, rest) => cap :: sectionsFindallAux fuel rest
    | none =>
      match s with
      | [] => []
      | _ :: t => sectionsFindallAux fuel t

/-- Model of DISK_SECTION_PATTERN.findall. -/
def disk_sections_findall (s : Str) : List Str :=
  sectionsFindallAux s.length s

/-!
Model of extract_field.  The source calls re.search(pattern, text,
re.IGNORECASE) with one of three pattern shapes, each a literal field label,
\s*, ':', \s*, then a single capture group, optionally followed by \s* and a
literal unit suffix.  The capture group is (.+) for Model, Disk Size,
Interface and Health Status, (\d+) (suffix 時間 or 回) for the power-on
counters, and ([\d,\.]+) (suffix GB) for Host Writes.
-/

/-- Character class [\d,\.] of the Host Writes capture group. -/
def isHostChar (c : Char) : Bool :=
  isPyDigit c || c == ',' || c == '.'

/-- Shape of the capture group and unit suffix of one extract_field pattern. -/
inductive FieldKind where
  | dotPlus : FieldKind
  | digitsThen : Str → FieldKind
  | classThen : Str → FieldKind

/-- One match attempt of an extract_field pattern anchored at the head of the
text.  The label is compared case-insensitively, then greedy \s*, the
mandatory ':', greedy \s*, then the capture group.  For the greedy (.+)
capture (no unit suffix follows): the capture runs from the first character
after the whitespace run to the end of its line; when the text ends at the
whitespace run, the greedy \s* backs off one character so that .+ can capture
the final whitespace character, provided it is not a newline.  For (\d+) and
([\d,\.]+) the capture is the maximal class run, which must be non-empty and
be followed by \s* and the unit suffix (case-insensitively); no backtracking
into the run can succeed because the suffixes start outside the classes and
outside \s. -/
def tryFieldAt (label : Str) (k : FieldKind) (s : Str) : Option Str :=
  match stripCaselessLit label s with
  | none => none
  | some r1 =>
    match r1.dropWhile isPySpace with
    | ':' :: r3 =>
      let w := r3.takeWhile isPySpace
      match k with
      | .dotPlus =>
        match r3.dropWhile isPySpace with
        | [] =>
          match w.reverse with
          | [] => none
          | lc :: _ => if lc = '\n' then none else some [lc]
        | c :: r => some ((c :: r).takeWhile (fun x => x ≠ '\n'))
      | .digitsThen suf =>
        let rest2 := r3.dropWhile isPySpace
        let d := rest2.takeWhile isPyDigit
        if d.isEmpty then none else
        let r4 := rest2.dropWhile isPyDigit
        if (stripCaselessLit suf (r4.dropWhile isPySpace)).isSome
        then some d else none
      | .classThen suf =>
        let rest2 := r3.dropWhile isPySpace
        let d := rest2.takeWhile isHostChar
        if d.isEmpty then none else
        let r4 := rest2.dropWhile isHostChar
        if (stripCaselessLit suf (r4.dropWhile isPySpace)).isSome
        then some d else none
    | _ => none

/-- Leftmost search of an extract_field pattern: try a match at every
position, left to right.  A match at the end-of-text position is impossible
because every pattern starts with a non-empty literal label, so the scan
stops at the empty text. -/
def searchField (label : Str) (k : FieldKind) : Str → Option Str
  | [] => none
  | c :: t =>
    match tryFieldAt label k (c :: t) with
    | some v => some v
    | none => searchField label k t

/-- The sentinel returned by extract_field for a missing field. -/
def sentinelNA : Str := "N/A".toList

/-- Model of extract_field: the stripped first capture group of the leftmost
match, or the sentinel "N/A" when the pattern does not match. -/
def extract_field (text : Str) (label : Str) (k : FieldKind) : Str :=
  match searchField label k text with
  | some v => pyStrip v
  | none => sentinelNA

/-- One parsed device record.  The Python source builds a dict with exactly
these seven keys (in this insertion order): "Model", "Disk Size",
"Interface", "Power On Hours", "Power On Count", "Host Writes",
"Health Status". -/
structure DiskInfo where
  Model : Str
  DiskSize : Str
  Interface : Str
  PowerOnHours : Str
  PowerOnCount : Str
  HostWrites : Str
  HealthStatus : Str
deriving DecidableEq, Repr

/-- The Host Writes entry of the record: the source evaluates
extract_field(section, pattern) and, when that string is truthy (non-empty),
removes every comma from it, otherwise uses "N/A". -/
def hostWritesField (sec : Str) : Str :=
  let v := extract_field sec "Host Writes".toList (FieldKind.classThen "GB".toList)
  if v.isEmpty then sentinelNA else removeCommas v

/-- The record assembled from one stripped detail section, mirroring the
disk_info dict construction of get_storage_log. -/
def mkDiskInfo (sec : Str) : DiskInfo :=
  ⟨extract_field sec "Model".toList FieldKind.dotPlus,
   extract_field sec "Disk Size".toList FieldKind.dotPlus,
   extract_field sec "Interface".toList FieldKind.dotPlus,
   extract_field sec "Power On Hours".toList (FieldKind.digitsThen "時間".toList),
   extract_field sec "Power On Count".toList (FieldKind.digitsThen "回".toList),
   hostWritesField sec,
   extract_field sec "Health Status".toList FieldKind.dotPlus⟩

/-- Model of get_storage_log: extract the disk-list section (empty result if
absent), require at least one disk entry in it, extract the detail sections
(empty result if none), then build one record per detail section, skipping
sections that are empty after stripping. -/
def get_storage_log (log_text : Str) : List DiskInfo :=
  match disk_list_search log_text with
  | none => []
  | some disk_list_text =>
    if (disk_entries_findall disk_list_text).isEmpty then []
    else
      let disk_sections := disk_sections_findall log_text
      if disk_sections.isEmpty then []
      else
        disk_sections.filterMap (fun sec =>
          let sec' := pyStrip sec
          if sec'.isEmpty then none else some (mkDiskInfo sec'))

/-!
Model of the persisted-artifact side: save_storage_info serialization,
DISK_INFO_PATTERN, and the parsing part of get_storage_info.
-/

/-- The literal "ディスク" opening DISK_INFO_PATTERN and checked by
startswith in get_storage_info. -/
def diskInfoHead : Str := "ディスク".toList

/-- Split a text at its first newline into (content, rest); none when no
newline exists.  This is the semantics of a greedy .+ (or .*) followed by a
literal \n without re.DOTALL: the dot run extends to the end of the line and
the newline must be present. -/
def lineSpan (s : Str) : Option (Str × Str) :=
  match s with
  | [] => none
  | c :: t =>
    if c = '\n' then some ([], t)
    else
      match lineSpan t with
      | none => none
      | some p => some (c :: p.1, p.2)

/-- A successful lineSpan decomposes the text as the newline-free content,
the newline, and the rest. -/
theorem lineSpan_spec {s l r : Str} (h : lineSpan s = some (l, r)) :
    s = l ++ '\n' :: r ∧ '\n' ∉ l := by
  induction s generalizing l r with
  | nil => simp [lineSpan] at h
  | cons c t ih =>
    rw [lineSpan] at h
    by_cases hc : c = '\n'
    · subst hc
      simp only [if_true] at h
      obtain ⟨h1, h2⟩ := Prod.mk.injEq .. ▸ Option.some.injEq .. ▸ h
      subst h1; subst h2; simp
    · simp only [hc, if_false] at h
      rcases hp : lineSpan t with _ | ⟨l', r'⟩
      · rw [hp] at h; simp at h
      · rw [hp] at h
        simp only [Option.some.injEq, Prod.mk.injEq] at h
        obtain ⟨h1, h2⟩ := h
        obtain ⟨hs, hm⟩ := ih hp
        subst h2
        rw [← h1]
        constructor
        · rw [hs]; simp
        · simp only [List.mem_cons, not_or]
          exact ⟨fun he => hc he.symm, hm⟩

/-- Splitting a newline-free text extended by a newline recovers the parts. -/
theorem lineSpan_append {l r : Str} (hl : '\n' ∉ l) :
    lineSpan (l ++ '\n' :: r) = some (l, r) := by
  induction l with
  | nil => simp [lineSpan]
  | cons c t ih =>
    have hc : c ≠ '\n' := fun h => hl (h ▸ List.mem_cons_self c t)
    have ht : '\n' ∉ t := fun h => hl (List.mem_cons_of_mem c h)
    rw [List.cons_append, lineSpan, if_neg hc, ih ht]

/-- One iteration of the line group (?:  .+\n)+ of DISK_INFO_PATTERN,
anchored at the head of the text: two literal spaces, one or more non-newline
characters (greedy, hence the whole rest of the line), then a newline.
Returns the line content after the two spaces (newline excluded) and the
rest. -/
def lineAt (s : Str) : Option (Str × Str) :=
  match s with
  | a :: b :: r =>
    if a = ' ' ∧ b = ' ' then
      match lineSpan r with
      | none => none
      | some (c, rest) => if c = [] then none else some (c, rest)
    else none
  | _ => none

/-- A successful lineAt match decomposes the text as the two spaces, the
non-empty newline-free line content, the newline and the rest. -/
theorem lineAt_spec {s c r : Str} (h : lineAt s = some (c, r)) :
    s = ' ' :: ' ' :: (c ++ '\n' :: r) ∧ c ≠ [] ∧ '\n' ∉ c := by
  match s with
  | [] => simp [lineAt] at h
  | [a] => simp [lineAt] at h
  | a :: b :: t =>
    rw [lineAt] at h
    split at h
    · rename_i hab
      rcases hp : lineSpan t with _ | ⟨l, r'⟩ <;> simp only [hp] at h
      · simp at h
      · split at h
        · simp at h
        · rename_i hne
          rw [Option.some.injEq, Prod.mk.injEq] at h
          obtain ⟨h1, h2⟩ := h
          obtain ⟨hs, hm⟩ := lineSpan_spec hp
          subst h1; subst h2
          exact ⟨by rw [hab.1, hab.2, hs], hne, hm⟩
    · simp at h

/-- Matching a well-formed line: two spaces, non-empty newline-free content,
newline, rest. -/
theorem lineAt_append {c r : Str} (hne : c ≠ []) (hnl : '\n' ∉ c) :
    lineAt (' ' :: ' ' :: (c ++ '\n' :: r)) = some (c, r) := by
  rw [lineAt]
  simp only [and_self, if_true, reduceIte]
  rw [lineSpan_append hnl]
  simp [hne]

/-- The greedy, at-least-once line group of DISK_INFO_PATTERN: consume as
many "  .+\n" lines as possible, returning the consumed text and the rest;
none when not even one line matches. -/
def consumeLines (s : Str) : Option (Str × Str) :=
  match hl : lineAt s with
  | none => none
  | some (c, r) =>
    have : r.length < s.length := by
      have hs := (lineAt_spec hl).1
      rw [hs]; simp; omega
    match consumeLines r with
    | none => some (' ' :: ' ' :: (c ++ ['\n']), r)
    | some (cs, r2) => some (' ' :: ' ' :: (c ++ '\n' :: cs), r2)
termination_by s.length

/-- A successful literal strip decomposes the text as literal plus rest. -/
theorem stripLit_spec {lit s r : Str} (h : stripLit lit s = some r) :
    s = lit ++ r := by
  induction lit generalizing s with
  | nil => simp_all [stripLit]
  | cons c cs ih =>
    match s with
    | [] => simp [stripLit] at h
    | a :: t =>
      rw [stripLit] at h
      split at h
      · rename_i ha
        rw [List.cons_append, ← ha]
        exact congrArg (a :: ·) (ih h)
      · simp at h

/-- Stripping a literal off a text that syntactically starts with it. -/
theorem stripLit_append (lit r : Str) : stripLit lit (lit ++ r) = some r := by
  induction lit with
  | nil => rfl
  | cons c cs ih => rw [List.cons_append, stripLit, if_pos rfl, ih]

/-- One match attempt of DISK_INFO_PATTERN, the pattern
ディスク\s+\d+:\n(?:  .+\n)+ (re.MULTILINE has no effect: the pattern has no
anchors), anchored at the head of the text: the literal ディスク, one or more
whitespace characters (greedy; no backtracking arises because a digit must
follow and digits are not whitespace), one or more digits (greedy; ':' is not
a digit), the literals ':' and newline, then the greedy line group.  Returns
the whole matched text and the rest. -/
def matchDiskInfoAt (s : Str) : Option (Str × Str) :=
  match stripLit diskInfoHead s with
  | none => none
  | some s1 =>
    let w := s1.takeWhile isPySpace
    if w.isEmpty then none else
    let s2 := s1.dropWhile isPySpace
    let d := s2.takeWhile isPyDigit
    if d.isEmpty then none else
    match s2.dropWhile isPyDigit with
    | ':' :: '\n' :: s4 =>
      match consumeLines s4 with
      | none => none
      | some (cs, rest) => some (diskInfoHead ++ w ++ d ++ ':' :: '\n' :: cs, rest)
    | _ => none

/-- Unfolding equation of consumeLines when no line matches. -/
theorem consumeLines_none {s : Str} (hl : lineAt s = none) :
    consumeLines s = none := by
  rw [consumeLines]
  split
  · rfl
  · rename_i c r hl2
    rw [hl2] at hl
    cases hl

/-- Unfolding equation of consumeLines when a line matches. -/
theorem consumeLines_step {s c r : Str} (hl : lineAt s = some (c, r)) :
    consumeLines s =
      match consumeLines r with
      | none => some (' ' :: ' ' :: (c ++ ['\n']), r)
      | some (cs, r2) => some (' ' :: ' ' :: (c ++ '\n' :: cs), r2) := by
  rw [consumeLines]
  split
  · rename_i hl2
    rw [hl2] at hl
    cases hl
  · rename_i c' r' hl2
    rw [hl2] at hl
    injection hl with h
    rw [Prod.mk.injEq] at h
    obtain ⟨e1, e2⟩ := h
    subst e1; subst e2
    rfl

/-- A successful consumeLines decomposes the text as consumed plus rest, the
consumed part being non-empty. -/
theorem consumeLines_spec {s cs r2 : Str} (h : consumeLines s = some (cs, r2)) :
    s = cs ++ r2 ∧ cs ≠ [] := by
  induction s using consumeLines.induct generalizing cs r2 with
  | case1 s hl =>
    rw [consumeLines_none hl] at h
    cases h
  | case2 s c r hl _hlt hn =>
    rw [consumeLines_step hl, hn] at h
    injection h with h
    rw [Prod.mk.injEq] at h
    obtain ⟨e1, e2⟩ := h
    subst e1; subst e2
    refine ⟨?_, by simp⟩
    rw [(lineAt_spec hl).1]
    simp
  | case3 s c r hl _hlt cs' r2' hs ih =>
    rw [consumeLines_step hl, hs] at h
    injection h with h
    rw [Prod.mk.injEq] at h
    obtain ⟨e1, e2⟩ := h
    subst e1; subst e2
    obtain ⟨hr, _⟩ := ih hs
    refine ⟨?_, by simp⟩
    rw [(lineAt_spec hl).1, hr]
    simp

/-- A successful DISK_INFO match decomposes the text as match plus rest, the
match being non-empty. -/
theorem matchDiskInfoAt_spec {s m r : Str} (h : matchDiskInfoAt s = some (m, r)) :
    s = m ++ r ∧ m ≠ [] := by
  rw [matchDiskInfoAt] at h
  rcases hstrip : stripLit diskInfoHead s with _ | s1 <;> rw [hstrip] at h
  · cases h
  · simp only at h
    split at h
    · cases h
    · split at h
      · cases h
      · rename_i hw hd
        split at h
        · rename_i s4 heq
          rcases hc : consumeLines s4 with _ | ⟨cs, rest⟩ <;> rw [hc] at h
          · cases h
          · simp only [Option.some.injEq, Prod.mk.injEq] at h
            obtain ⟨e1, e2⟩ := h
            subst e1; subst e2
            obtain ⟨hs4, _⟩ := consumeLines_spec hc
            have hsplit : s = diskInfoHead ++ s1 := stripLit_spec hstrip
            have hs1 : s1 = s1.takeWhile isPySpace ++ s1.dropWhile isPySpace :=
              (List.takeWhile_append_dropWhile ..).symm
            have hs2 : s1.dropWhile isPySpace =
                (s1.dropWhile isPySpace).takeWhile isPyDigit ++
                (s1.dropWhile isPySpace).dropWhile isPyDigit :=
              (List.takeWhile_append_dropWhile ..).symm
            constructor
            · rw [hsplit]
              conv_lhs => rw [hs1]
              conv_lhs => rw [hs2]
              rw [heq, hs4]
              simp
            · simp [diskInfoHead]
        · cases h

/-- Model of DISK_INFO_PATTERN.findall: scan every position from left to
right, emitting matched texts of non-overlapping matches and resuming after
each match end. -/
def disk_info_findall (s : Str) : List Str :=
  match hm : matchDiskInfoAt s with
  | some (m, r) =>
    have : r.length < s.length := by
      obtain ⟨he, hne⟩ := matchDiskInfoAt_spec hm
      rw [he]
      cases m with
      | nil => exact absurd rfl hne
      | cons a t =>
        simp only [List.cons_append, List.length_cons, List.length_append]
        omega
    m :: disk_info_findall r
  | none =>
    match s with
    | [] => []
    | _ :: t => disk_info_findall t
termination_by s.length

/-- Unfolding equation of disk_info_findall at a match. -/
theorem disk_info_findall_pos {s m r : Str} (hm : matchDiskInfoAt s = some (m, r)) :
    disk_info_findall s = m :: disk_info_findall r := by
  rw [disk_info_findall]
  split
  · rename_i m' r' hm2
    rw [hm2] at hm
    injection hm with h
    rw [Prod.mk.injEq] at h
    obtain ⟨e1, e2⟩ := h
    subst e1; subst e2
    rfl
  · rename_i hm2
    rw [hm2] at hm
    cases hm

/-- Unfolding equation of disk_info_findall on the empty text. -/
theorem disk_info_findall_nil : disk_info_findall [] = [] := by
  rw [disk_info_findall]
  have hnone : matchDiskInfoAt [] = none := by decide
  split
  · rename_i m' r' hm2
    rw [hnone] at hm2
    cases hm2
  · rfl

/-- Unfolding equation of disk_info_findall at a non-match position. -/
theorem disk_info_findall_neg {c : Char} {t : Str}
    (hm : matchDiskInfoAt (c :: t) = none) :
    disk_info_findall (c :: t) = disk_info_findall t := by
  rw [disk_info_findall]
  split
  · rename_i m' r' hm2
    rw [hm2] at hm
    cases hm
  · rfl

/-- Python dict assignment d[k] = v on an insertion-ordered dictionary: an
existing key keeps its position and gets the new value, a new key is appended
at the end. -/
def dictInsert (d : List (Str × Str)) (k v : Str) : List (Str × Str) :=
  match d with
  | [] => [(k, v)]
  | (k0, v0) :: rest =>
    if k0 = k then (k0, v) :: rest else (k0, v0) :: dictInsert rest k v

/-- Model of str.startswith("ディスク"). -/
def startsWithDiskHead (s : Str) : Bool :=
  (stripLit diskInfoHead s).isSome

/-- One line of the get_storage_info per-block loop: a line containing a
colon is split at its first colon; the line is skipped when its stripped key
starts with ディスク (the device header), otherwise the stripped key is bound
to the stripped value; a line with no colon is skipped. -/
def parseLineStep (dict : List (Str × Str)) (line : Str) : List (Str × Str) :=
  if line.contains ':' then
    let lp := splitFirstColon line
    if startsWithDiskHead (pyStrip lp.1) then dict
    else dictInsert dict (pyStrip lp.1) (pyStrip lp.2)
  else dict

/-- Per-block field extraction of get_storage_info: strip the block, split it
on newlines, and fold the per-line step over the lines. -/
def parseBlockLines (block : Str) : List (Str × Str) :=
  (splitOnNl (pyStrip block)).foldl parseLineStep []

/-- Model of the parsing part of get_storage_info (file access abstracted
away: the function is applied to the artifact text that was read): every
DISK_INFO_PATTERN match becomes one insertion-ordered key/value map. -/
def get_storage_info_parse (content : Str) : List (List (Str × Str)) :=
  (disk_info_findall content).map parseBlockLines

/-- One serialized field line of save_storage_info, literally
"  <label>: <value>\n" as written by the f-strings. -/
def fieldLine (pre : Str) (v : Str) : Str :=
  pre ++ v ++ ['\n']

/-- One serialized device block of save_storage_info: the header line
"ディスク <idx>:\n", the seven field lines in fixed order, and the trailing
blank line from the final "\n\n". -/
def save_block (idx : Nat) (d : DiskInfo) : Str :=
  "ディスク ".toList ++ natDigits idx ++ ":\n".toList ++
  fieldLine "  Model: ".toList d.Model ++
  fieldLine "  Disk Size: ".toList d.DiskSize ++
  fieldLine "  Interface: ".toList d.Interface ++
  fieldLine "  Power On Hours: ".toList d.PowerOnHours ++
  fieldLine "  Power On Count: ".toList d.PowerOnCount ++
  fieldLine "  Host Writes: ".toList d.HostWrites ++
  fieldLine "  Health Status: ".toList d.HealthStatus ++ ['\n']

/-- Serialization loop of save_storage_info over enumerate(disks, start=1). -/
def save_go (idx : Nat) : List DiskInfo → Str
  | [] => []
  | d :: ds => save_block idx d ++ save_go (idx + 1) ds

/-- The full artifact text written by save_storage_info. -/
def save_storage_info_text (disks : List DiskInfo) : Str :=
  save_go 1 disks

/-!
Model of the orchestration function get_CrystalDiskInfo_log and of the
catalog function search_storage_log.  External effects are abstracted into an
environment record; the orchestrator returns a trace of its observable
actions together with its boolean result.
-/

/-- The outside world of one collection run: whether DiskInfo32.exe exists at
the resolved path, whether the elevated ShellExecuteW launch succeeds
(result above 32 and no exception), the process table visible at each poll,
whether DiskInfo.txt exists and its size, the text read from it, and whether
the copy write, the save_storage_info write and the os.remove succeed
(raise no exception). -/
structure Env where
  executable_exists : Bool
  launch_ok : Bool
  procs : Nat → List Str
  log_exists : Bool
  log_size : Nat
  raw_content : Str
  copy_ok : Bool
  save_ok : Bool
  remove_ok : Bool

/-- Observable effects of one run of get_CrystalDiskInfo_log: whether the
launch was attempted, how many process-table polls ran, whether the
storage_health_log copy and the storage_info_log report were (completely)
written, whether the raw DiskInfo.txt was removed, and the returned
boolean. -/
structure RunTrace where
  launched : Bool
  polls : Nat
  wrote_health_log : Bool
  wrote_info_log : Bool
  removed_raw : Bool
  result : Bool
deriving DecidableEq, Repr

/-- The lowercase process name the wait loop compares against. -/
def processTargetName : Str := "diskinfo32.exe".toList

/-- One poll of the process table: some process name, lowercased, equals
"diskinfo32.exe" (the source's proc.info["name"].lower() comparison). -/
def runningAt (env : Env) (k : Nat) : Bool :=
  (env.procs k).any (fun nm => pyLower nm == processTargetName)

/-- Idealized elapsed wall time (seconds) right before poll k: the loop has
slept k times for 0.5 seconds each. -/
def elapsedSeconds (k : Nat) : ℚ :=
  (k : ℚ) / 2

/-- The 10-second timeout of the wait loop. -/
def collectionTimeout : ℚ := 10

/-- The timeout test time.time() - start_time > timeout at poll k. -/
def timedOut (k : Nat) : Bool :=
  decide (collectionTimeout < elapsedSeconds k)

/-- The timeout test fires exactly beyond the 21st poll (k counts from 0):
k/2 > 10 holds exactly when 20 < k. -/
theorem timedOut_iff (k : Nat) : timedOut k = true ↔ 20 < k := by
  unfold timedOut elapsedSeconds collectionTimeout
  rw [decide_eq_true_iff]
  rw [lt_div_iff₀ (by norm_num : (0 : ℚ) < 2)]
  constructor
  · intro h
    by_contra hk
    push_neg at hk
    have : (k : ℚ) ≤ 20 := by exact_mod_cast hk
    linarith
  · intro h
    have : (20 : ℚ) < (k : ℚ) := by exact_mod_cast h
    linarith

/-- The completion-wait loop of get_CrystalDiskInfo_log, from poll k: check
the process table first; when no match remains, succeed; otherwise, when
elapsed time exceeds the timeout, fail; otherwise sleep and repeat.  Returns
the result and the number of polls performed. -/
def wait_go (env : Env) (k : Nat) : Bool × Nat :=
  if runningAt env k = false then (true, k + 1)
  else if timedOut k then (false, k + 1)
  else wait_go env (k + 1)
termination_by 21 - k
decreasing_by
  simp only [timedOut_iff] at *
  omega

/-- Model of get_CrystalDiskInfo_log.  Mirrors the source's control flow:
missing executable aborts before any launch; a failed launch aborts before
any poll; a failed wait, a missing or empty DiskInfo.txt and a failed copy
abort before parsing; then the parsed records are persisted only when
non-empty (a save_storage_info exception is caught inside save_storage_info
and does not change the flow), the raw log removal is attempted (failure
only logged), and True is returned. -/
def get_CrystalDiskInfo_log (env : Env) : RunTrace :=
  if env.executable_exists = false then ⟨false, 0, false, false, false, false⟩
  else if env.launch_ok = false then ⟨true, 0, false, false, false, false⟩
  else
    let w := wait_go env 0
    if w.1 = false then ⟨true, w.2, false, false, false, false⟩
    else if env.log_exists = false then ⟨true, w.2, false, false, false, false⟩
    else if env.log_size = 0 then ⟨true, w.2, false, false, false, false⟩
    else if env.copy_ok = false then ⟨true, w.2, false, false, false, false⟩
    else
      let disks := get_storage_log env.raw_content
      let saved := if disks.isEmpty then false else env.save_ok
      ⟨true, w.2, true, saved, env.remove_ok, true⟩

/-- One file in the log folder, as seen by search_storage_log: its bare name
(the glob pattern lives entirely inside the log folder, so matching the full
path against log_folder/storage_info_log_*.txt is matching the bare name
against storage_info_log_*.txt, and os.path.basename returns the bare name)
and its modification time. -/
structure LogFile where
  name : Str
  mtime : Nat
deriving DecidableEq, Repr

/-- Glob match against storage_info_log_*.txt: the fixed head, then any
characters containing no path separator, then the fixed tail. -/
def glob_matches (nm : Str) : Bool :=
  let pre := "storage_info_log_".toList
  let suf := ".txt".toList
  decide (pre.length + suf.length ≤ nm.length) &&
  (stripLit pre nm).isSome &&
  suf.isSuffixOf nm &&
  ((nm.drop pre.length).take (nm.length - pre.length - suf.length)).all
    (fun c => !(c == '/') && !(c == '\\'))

/-- Stable descending insertion by modification time: the new element goes
before the first strictly older element and after earlier equal ones, which
is the ordering contract of Python's sorted(key=getmtime, reverse=True). -/
def sortInsertDesc (x : LogFile) : List LogFile → List LogFile
  | [] => [x]
  | y :: ys => if y.mtime ≤ x.mtime then x :: y :: ys else y :: sortInsertDesc x ys

/-- Stable sort by modification time, most recent first. -/
def sortByMtimeDesc (l : List LogFile) : List LogFile :=
  l.foldr sortInsertDesc []

/-- Model of search_storage_log: keep the files matching the
storage_info_log_*.txt pattern, return the empty list when none match,
otherwise their bare names sorted by modification time descending. -/
def search_storage_log (files : List LogFile) : List Str :=
  let log_files := files.filter (fun f => glob_matches f.name)
  if log_files.isEmpty then []
  else (sortByMtimeDesc log_files).map (fun f => f.name)

/-!
Helper lemmas about the completion-wait loop.
-/

/-- When every poll up to j sees the process and poll j does not, the loop
started at or before j succeeds right at poll j, having performed j + 1 - k
polls in total (so snd is j + 1 when started at 0). -/
theorem wait_go_true_of (env : Env) (j : Nat) (hj : j ≤ 21) :
    ∀ k, k ≤ j → (∀ i, k ≤ i → i < j → runningAt env i = true) →
    runningAt env j = false → wait_go env k = (true, j + 1) := by
  intro k hk hall hstop
  generalize hd : j - k = n at *
  induction n generalizing k with
  | zero =>
    have hkj : k = j := by omega
    subst hkj
    rw [wait_go, hstop]
    simp
  | succ n ih =>
    have hkj : k < j := by omega
    have hrun : runningAt env k = true := hall k le_rfl hkj
    have ht : timedOut k = false := by
      rw [← Bool.not_eq_true]
      simp only [timedOut_iff]
      omega
    rw [wait_go, hrun, ht]
    simp only [Bool.true_eq_false, if_false, Bool.false_eq_true]
    exact ih (k + 1) (by omega) (fun i hi1 hi2 => hall i (by omega) hi2) (by omega)

/-- When every poll through poll 21 sees the process, the loop started at or
before 21 times out, returning failure after poll 21 (22 polls from 0):
elapsed idealized time is then 21/2 = 10.5 seconds, the first value
exceeding the 10-second timeout. -/
theorem wait_go_false_of (env : Env) :
    ∀ k, k ≤ 21 → (∀ i, k ≤ i → i ≤ 21 → runningAt env i = true) →
    wait_go env k = (false, 22) := by
  intro k hk hall
  generalize hd : 21 - k = n at *
  induction n generalizing k with
  | zero =>
    have hkj : k = 21 := by omega
    subst hkj
    have hrun : runningAt env 21 = true := hall 21 le_rfl le_rfl
    have ht : timedOut 21 = true := by
      simp only [timedOut_iff]
      omega
    rw [wait_go, hrun, ht]
    simp
  | succ n ih =>
    have hrun : runningAt env k = true := hall k le_rfl hk
    have ht : timedOut k = false := by
      rw [← Bool.not_eq_true]
      simp only [timedOut_iff]
      omega
    rw [wait_go, hrun, ht]
    simp only [Bool.true_eq_false, if_false, Bool.false_eq_true]
    exact ih (k + 1) (by omega) (fun i hi1 hi2 => hall i (by omega) hi2) (by omega)

/-- The run trace under the conditions that let the run reach the parsing
step: tool present, launch fine, raw artifact present, non-empty and copied.
The outcome then only depends on the wait result and on whether parsing
found records. -/
theorem run_trace_eq (env : Env)
    (hexe : env.executable_exists = true) (hlaunch : env.launch_ok = true)
    (hlog : env.log_exists = true) (hsize : env.log_size ≠ 0)
    (hcopy : env.copy_ok = true) :
    get_CrystalDiskInfo_log env =
      if (wait_go env 0).1 = false then
        ⟨true, (wait_go env 0).2, false, false, false, false⟩
      else
        ⟨true, (wait_go env 0).2, true,
         if (get_storage_log env.raw_content).isEmpty then false else env.save_ok,
         env.remove_ok, true⟩ := by
  unfold get_CrystalDiskInfo_log
  rw [hexe, hlaunch, hlog, hcopy]
  simp [hsize]

set_option maxRecDepth 400000

set_option maxHeartbeats 2000000

/-!
Concrete example environments and texts used by counterexamples and
witnesses.
-/

/-- Environment in which the executable is absent. -/
def envNoExe : Env :=
  ⟨false, true, fun _ => [], true, 1, [], true, true, true⟩

/-- Environment of a fully successful run whose raw artifact text contains
none of the expected report markers, so parsing yields zero records. -/
def envEmptyParse : Env :=
  ⟨true, true, fun _ => [], true, 1, ['x'], true, true, true⟩

/-- Environment in which the external tool's process never leaves the
process table (name differing only in letter case). -/
def envHung : Env :=
  ⟨true, true, fun _ => ["DiskInfo32.exe".toList], true, 1, [], true, true, true⟩

/-- The disk-list banner line of the example report. -/
def exBanner1 : String :=
  "-- Disk List ---------------------------------------------------------------"

/-- The separator banner line of the example report. -/
def exSep : String :=
  "----------------------------------------------------------------------------"

/-- The detail-field block of the example report. -/
def exFields : String :=
  "Model : TestDisk\n Disk Size : 500.1 GB\n Interface : Serial ATA\n Power On Hours : 8760 時間\n Power On Count : 100 回\n Host Writes : 1,234 GB\n Health Status : 正常"

/-- A well-formed single-device raw report around a given detail block. -/
def mkExText (fields : String) : Str :=
  (exBanner1 ++ "\n (1) TestDisk : 500.1 GB [0/0/0, pd1]\n" ++ exSep ++ "\n\n" ++
   exSep ++ "\n (1) TestDisk\n" ++ exSep ++ "\n" ++ fields ++
   "\n-- S.M.A.R.T. ----").toList

/-- A complete well-formed single-device raw report. -/
def exText : Str := mkExText exFields

/-- The record extracted from exText. -/
def exRecord : DiskInfo :=
  ⟨"TestDisk".toList, "500.1 GB".toList, "Serial ATA".toList, "8760".toList,
   "100".toList, "1234".toList, "正常".toList⟩

/-- Environment of a run that parses exText successfully but whose
save_storage_info write raises. -/
def envSaveFails : Env :=
  ⟨true, true, fun _ => [], true, 1, exText, true, false, true⟩

/-- C9: when the executable path does not exist, get_CrystalDiskInfo_log
returns failure immediately: no launch is attempted, no process-table poll
runs, and neither the copied raw buffer artifact nor a report file is
created. -/
theorem C9_tool_not_found_aborts_with_no_effects (env : Env)
    (h : env.executable_exists = false) :
    get_CrystalDiskInfo_log env = ⟨false, 0, false, false, false, false⟩ := by
  unfold get_CrystalDiskInfo_log
  rw [h]
  rfl

/-- Witness for C9 at a concrete environment. -/
theorem C9_tool_not_found_aborts_with_no_effects_witness :
    get_CrystalDiskInfo_log envNoExe = ⟨false, 0, false, false, false, false⟩ :=
  C9_tool_not_found_aborts_with_no_effects envNoExe rfl

/-- C7: the completion wait polls the process table for a case-insensitive
match of the tool's process name once per idealized 0.5-second interval
(poll k happens at elapsed time k/2 seconds); it succeeds at the first poll
that sees no match (having polled j + 1 times); and when a match persists
through poll 21 — the first poll at which elapsed time k/2 exceeds the
10-second timeout being k = 21 — it returns a timed-out failure after 22
polls, and the collection run then returns failure, never success. -/
theorem C7_wait_succeeds_on_exit_and_fails_on_timeout (env : Env) :
    (∀ j, j ≤ 21 → (∀ i, i < j → runningAt env i = true) →
      runningAt env j = false → wait_go env 0 = (true, j + 1)) ∧
    ((∀ i, i ≤ 21 → runningAt env i = true) →
      wait_go env 0 = (false, 22) ∧
      (env.executable_exists = true → env.launch_ok = true →
        (get_CrystalDiskInfo_log env).result = false)) := by
  constructor
  · intro j hj hall hstop
    exact wait_go_true_of env j hj 0 (Nat.zero_le j) (fun i _ hi2 => hall i hi2) hstop
  · intro hall
    have hw : wait_go env 0 = (false, 22) :=
      wait_go_false_of env 0 (by omega) (fun i _ hi2 => hall i hi2)
    refine ⟨hw, fun hexe hlaunch => ?_⟩
    unfold get_CrystalDiskInfo_log
    rw [hexe, hlaunch]
    simp only [Bool.true_eq_false, if_false, hw]
    simp

/-- Witness for C7 at a concrete environment whose process table always
contains the tool (name differing in case). -/
theorem C7_wait_succeeds_on_exit_and_fails_on_timeout_witness :
    wait_go envHung 0 = (false, 22) ∧
    (get_CrystalDiskInfo_log envHung).result = false :=
  have hall : ∀ i, i ≤ 21 → runningAt envHung i = true := fun _ _ => rfl
  ⟨((C7_wait_succeeds_on_exit_and_fails_on_timeout envHung).2 hall).1,
   ((C7_wait_succeeds_on_exit_and_fails_on_timeout envHung).2 hall).2 rfl rfl⟩

/-- C1 (amended): when the tool launch, wait, artifact validation and copy
all succeed but parsing yields zero records, get_CrystalDiskInfo_log still
returns success, but it does NOT persist a Report artifact: the
save_storage_info call is skipped when the parsed record list is empty. -/
theorem C1_empty_parse_succeeds_without_persisting (env : Env)
    (hexe : env.executable_exists = true) (hlaunch : env.launch_ok = true)
    (hwait : (wait_go env 0).1 = true) (hlog : env.log_exists = true)
    (hsize : env.log_size ≠ 0) (hcopy : env.copy_ok = true)
    (hparse : get_storage_log env.raw_content = []) :
    (get_CrystalDiskInfo_log env).result = true ∧
    (get_CrystalDiskInfo_log env).wrote_info_log = false := by
  rw [run_trace_eq env hexe hlaunch hlog hsize hcopy]
  rw [hwait, hparse]
  simp

/-- Counterexample to C1 as stated: a run in which every step succeeds and
parsing yields zero records returns success yet writes no
storage_info_log artifact at all. -/
theorem C1_counterexample_no_empty_artifact :
    get_storage_log envEmptyParse.raw_content = [] ∧
    (get_CrystalDiskInfo_log envEmptyParse).result = true ∧
    (get_CrystalDiskInfo_log envEmptyParse).wrote_info_log = false := by
  have hp : get_storage_log envEmptyParse.raw_content = [] := by decide
  have hw : wait_go envEmptyParse 0 = (true, 1) :=
    wait_go_true_of envEmptyParse 0 (by omega) 0 le_rfl
      (fun i hi1 hi2 => absurd hi2 (Nat.not_lt_zero i)) rfl
  refine ⟨hp, ?_⟩
  rw [run_trace_eq envEmptyParse rfl rfl rfl (by decide) rfl, hw, hp]
  simp

/-- Witness for C1 (amended) at a concrete environment. -/
theorem C1_empty_parse_succeeds_without_persisting_witness :
    (get_CrystalDiskInfo_log envEmptyParse).result = true ∧
    (get_CrystalDiskInfo_log envEmptyParse).wrote_info_log = false :=
  C1_empty_parse_succeeds_without_persisting envEmptyParse rfl rfl
    (by rw [wait_go_true_of envEmptyParse 0 (by omega) 0 le_rfl
          (fun i hi1 hi2 => absurd hi2 (Nat.not_lt_zero i)) rfl])
    rfl (by decide) rfl (by decide)

/-- C3 (amended): when parsing produced at least one record but the
save_storage_info write raises, the exception is caught and logged inside
save_storage_info, no report artifact results, and get_CrystalDiskInfo_log
still returns success rather than aborting. -/
theorem C3_persist_failure_still_returns_success (env : Env)
    (hexe : env.executable_exists = true) (hlaunch : env.launch_ok = true)
    (hwait : (wait_go env 0).1 = true) (hlog : env.log_exists = true)
    (hsize : env.log_size ≠ 0) (hcopy : env.copy_ok = true)
    (hparse : get_storage_log env.raw_content ≠ [])
    (hsave : env.save_ok = false) :
    (get_CrystalDiskInfo_log env).result = true ∧
    (get_CrystalDiskInfo_log env).wrote_info_log = false := by
  rw [run_trace_eq env hexe hlaunch hlog hsize hcopy]
  rw [hwait, hsave]
  have hne : (get_storage_log env.raw_content).isEmpty = false := by
    rw [List.isEmpty_eq_false_iff_exists_mem]
    rcases hk : get_storage_log env.raw_content with _ | ⟨a, t⟩
    · exact absurd hk hparse
    · exact ⟨a, List.mem_cons_self a t⟩
  rw [hne]
  simp

/-- Counterexample to C3 as stated: a run that parses one record and whose
persist write raises still returns success (True), not failure. -/
theorem C3_counterexample_persist_failure_reports_success :
    get_storage_log envSaveFails.raw_content = [exRecord] ∧
    envSaveFails.save_ok = false ∧
    (get_CrystalDiskInfo_log envSaveFails).result = true := by
  have hp : get_storage_log envSaveFails.raw_content = [exRecord] := by decide
  have hw : wait_go envSaveFails 0 = (true, 1) :=
    wait_go_true_of envSaveFails 0 (by omega) 0 le_rfl
      (fun i hi1 hi2 => absurd hi2 (Nat.not_lt_zero i)) rfl
  refine ⟨hp, rfl, ?_⟩
  rw [run_trace_eq envSaveFails rfl rfl rfl (by decide) rfl, hw]
  simp

/-- Witness for C3 (amended) at a concrete environment. -/
theorem C3_persist_failure_still_returns_success_witness :
    (get_CrystalDiskInfo_log envSaveFails).result = true ∧
    (get_CrystalDiskInfo_log envSaveFails).wrote_info_log = false :=
  C3_persist_failure_still_returns_success envSaveFails rfl rfl
    (by rw [wait_go_true_of envSaveFails 0 (by omega) 0 le_rfl
          (fun i hi1 hi2 => absurd hi2 (Nat.not_lt_zero i)) rfl])
    rfl (by decide) rfl (by decide) rfl

/-- C5: get_storage_log is a total function (the model is a Lean function,
so it terminates and raises nothing on every input), and it returns the
empty record list whenever the banner-delimited disk-list section is absent,
or that section contains no "(N) model" entry, or no detail section is
found. -/
theorem C5_parse_empty_on_missing_markers (s : Str) :
    (disk_list_search s = none → get_storage_log s = []) ∧
    (∀ lt, disk_list_search s = some lt → disk_entries_findall lt = [] →
      get_storage_log s = []) ∧
    (disk_sections_findall s = [] → get_storage_log s = []) := by
  unfold get_storage_log
  rcases h : disk_list_search s with _ | l <;> simp only [h]
  · simp
  · refine ⟨by simp, fun lt hlt he => ?_, fun hsec => ?_⟩
    · injection hlt with hl
      subst hl
      rw [he]
      simp
    · by_cases hent : (disk_entries_findall l).isEmpty
      · simp [hent]
      · simp only [hent, Bool.false_eq_true, if_false]
        rw [hsec]
        simp

/-!
Infrastructure for the field-value invariants: character-class facts and
properties of the strip model.
-/

/-- A text whose last character (if any) is not whitespace. -/
def lastNotSpace (s : Str) : Prop :=
  ∀ c ∈ s.reverse.head?, isPySpace c = false

/-- The head dropWhile stops at falsifies the predicate. -/
theorem dropWhile_cons_head_false {p : Char → Bool} {l : Str} {c : Char} {r : Str}
    (h : l.dropWhile p = c :: r) : p c = false := by
  have hh := List.head?_dropWhile_not p l
  rw [h] at hh
  simpa using hh

/-- Digits are not whitespace. -/
theorem digit_not_space {x : Char} (h : isPyDigit x = true) : isPySpace x = false := by
  by_contra hs
  rw [Bool.not_eq_false] at hs
  unfold isPySpace at hs
  simp only [Bool.or_eq_true, beq_iff_eq] at hs
  rcases hs with ((((hx | hx) | hx) | hx) | hx) | hx <;>
    rw [hx] at h <;> simp [isPyDigit] at h

/-- Digits are not the newline character. -/
theorem digit_ne_nl {x : Char} (h : isPyDigit x = true) : x ≠ '\n' := by
  intro hx
  rw [hx] at h
  simp [isPyDigit] at h

/-- Host Writes class characters are not whitespace. -/
theorem hostChar_not_space {x : Char} (h : isHostChar x = true) : isPySpace x = false := by
  unfold isHostChar at h
  simp only [Bool.or_eq_true, beq_iff_eq] at h
  rcases h with (hd | hx) | hx
  · exact digit_not_space hd
  · rw [hx]; decide
  · rw [hx]; decide

/-- Host Writes class characters are not the newline character. -/
theorem hostChar_ne_nl {x : Char} (h : isHostChar x = true) : x ≠ '\n' := by
  unfold isHostChar at h
  simp only [Bool.or_eq_true, beq_iff_eq] at h
  rcases h with (hd | hx) | hx
  · exact digit_ne_nl hd
  · rw [hx]; decide
  · rw [hx]; decide

/-- Dropping leading whitespace from a text headed by a non-whitespace
character changes nothing. -/
theorem pyDropLead_cons_of_not_space {c : Char} {r : Str} (h : isPySpace c = false) :
    pyDropLead (c :: r) = c :: r := by
  unfold pyDropLead
  rw [List.dropWhile_cons, h]
  simp

/-- The trailing strip leaves a front portion of the text. -/
theorem pyDropTrail_front (s : Str) : ∃ u, s = pyDropTrail s ++ u := by
  obtain ⟨u', hu⟩ := List.dropWhile_suffix (l := s.reverse) (p := isPySpace)
  refine ⟨u'.reverse, ?_⟩
  conv_lhs => rw [← List.reverse_reverse s, ← hu]
  rw [List.reverse_append]
  rfl

/-- The trailing strip of a text containing a non-whitespace character is
non-empty. -/
theorem pyDropTrail_ne_nil {s : Str} {c : Char} (hc : c ∈ s)
    (h : isPySpace c = false) : pyDropTrail s ≠ [] := by
  unfold pyDropTrail
  intro hnil
  rw [List.reverse_eq_nil_iff, List.dropWhile_eq_nil_iff] at hnil
  have := hnil c (List.mem_reverse.mpr hc)
  rw [h] at this
  cases this

/-- Characters of the trailing strip come from the text. -/
theorem mem_of_mem_pyDropTrail {s : Str} {x : Char} (hx : x ∈ pyDropTrail s) : x ∈ s := by
  unfold pyDropTrail at hx
  rw [List.mem_reverse] at hx
  have := (List.dropWhile_suffix (l := s.reverse) (p := isPySpace)).sublist.mem hx
  exact List.mem_reverse.mp this

/-- Characters of the stripped text come from the text. -/
theorem mem_of_mem_pyStrip {s : Str} {x : Char} (hx : x ∈ pyStrip s) : x ∈ s := by
  unfold pyStrip at hx
  have h1 := mem_of_mem_pyDropTrail hx
  unfold pyDropLead at h1
  exact (List.dropWhile_suffix isPySpace).sublist.mem h1

/-- The stripped text ends in a non-whitespace character (if non-empty). -/
theorem lastNotSpace_pyStrip (s : Str) : lastNotSpace (pyStrip s) := by
  intro c hc
  unfold pyStrip pyDropTrail at hc
  rw [List.reverse_reverse] at hc
  have hh := List.head?_dropWhile_not isPySpace (pyDropLead s).reverse
  rcases hd : ((pyDropLead s).reverse.dropWhile isPySpace).head? with _ | a
  · rw [hd] at hc; cases hc
  · rw [hd] at hh hc
    cases hc
    simpa using hh

/-- The stripped text starts with a non-whitespace character (if non-empty). -/
theorem headNotSpace_pyStrip (s : Str) :
    ∀ c ∈ (pyStrip s).head?, isPySpace c = false := by
  intro c hc
  rcases hp : pyStrip s with _ | ⟨a, t⟩
  · rw [hp] at hc; cases hc
  · rw [hp] at hc
    simp only [List.head?_cons, Option.mem_def, Option.some.injEq] at hc
    subst hc
    obtain ⟨u, hu⟩ := pyDropTrail_front (pyDropLead s)
    have hps : pyDropTrail (pyDropLead s) = a :: t := hp
    rw [hps] at hu
    have hfront : s.dropWhile isPySpace = a :: (t ++ u) := by
      have hx : pyDropLead s = a :: (t ++ u) := by rw [hu]; simp
      exact hx
    exact dropWhile_cons_head_false hfront

/-- Dropping trailing whitespace from a text ending in a non-whitespace
character changes nothing. -/
theorem pyDropTrail_eq_self {s : Str} (h : lastNotSpace s) : pyDropTrail s = s := by
  unfold pyDropTrail
  rcases hr : s.reverse with _ | ⟨a, t⟩
  · rw [List.reverse_eq_nil_iff] at hr
    rw [hr]
    rfl
  · have ha : isPySpace a = false := by
      apply h
      rw [hr]
      rfl
    rw [List.dropWhile_cons, ha]
    simp only [Bool.false_eq_true, if_false]
    rw [← hr, List.reverse_reverse]

/-- Stripping a text that starts and ends in non-whitespace characters
changes nothing. -/
theorem pyStrip_eq_self {s : Str} (hh : ∀ c ∈ s.head?, isPySpace c = false)
    (hl : lastNotSpace s) : pyStrip s = s := by
  unfold pyStrip
  have h1 : pyDropLead s = s := by
    rcases s with _ | ⟨a, t⟩
    · rfl
    · exact pyDropLead_cons_of_not_space (hh a rfl)
  rw [h1, pyDropTrail_eq_self hl]

/-- The strip model is idempotent. -/
theorem pyStrip_idem (s : Str) : pyStrip (pyStrip s) = pyStrip s :=
  pyStrip_eq_self (headNotSpace_pyStrip s) (lastNotSpace_pyStrip s)

/-- Stripping an all-non-whitespace text changes nothing. -/
theorem pyStrip_eq_self_of_all {s : Str} (h : ∀ x ∈ s, isPySpace x = false) :
    pyStrip s = s := by
  apply pyStrip_eq_self
  · intro c hc
    rcases s with _ | ⟨a, t⟩
    · cases hc
    · simp only [List.head?_cons, Option.mem_def, Option.some.injEq] at hc
      subst hc
      exact h _ (List.mem_cons_self _ _)
  · intro c hc
    apply h
    rcases hr : s.reverse with _ | ⟨b, u⟩
    · rw [hr] at hc; cases hc
    · rw [hr] at hc
      simp only [List.head?_cons, Option.mem_def, Option.some.injEq] at hc
      subst hc
      rw [← List.mem_reverse, hr]
      exact List.mem_cons_self _ _

/-- The stripped text of a text headed (after leading whitespace) by a
non-whitespace character is non-empty. -/
theorem pyStrip_cons_ne_nil {c : Char} {r : Str} (h : isPySpace c = false) :
    pyStrip (c :: r) ≠ [] := by
  unfold pyStrip
  rw [pyDropLead_cons_of_not_space h]
  exact pyDropTrail_ne_nil (List.mem_cons_self c r) h

/-- A suffix of a text ending in a non-whitespace character also ends in a
non-whitespace character. -/
theorem lastNotSpace_of_sfx {s t : Str} (h : t <:+ s) (hs : lastNotSpace s) :
    lastNotSpace t := by
  intro c hc
  obtain ⟨u, hu⟩ := h
  apply hs
  rw [← hu, List.reverse_append]
  rcases hr : t.reverse with _ | ⟨a, r⟩
  · rw [hr] at hc; cases hc
  · rw [hr] at hc
    simpa using hc

/-- The remainder of a case-insensitive literal strip is a suffix of the
text. -/
theorem stripCaselessLit_sfx {lit s r : Str} (h : stripCaselessLit lit s = some r) :
    r <:+ s := by
  induction lit generalizing s with
  | nil =>
    rw [stripCaselessLit] at h
    injection h with h
    rw [h]
  | cons c cs ih =>
    match s with
    | [] => cases h
    | a :: t =>
      rw [stripCaselessLit] at h
      split at h
      · exact (ih h).trans (List.suffix_cons a t)
      · cases h

/-- A successful (.+) capture of tryFieldAt on a text ending in a
non-whitespace character starts with a non-whitespace character and contains
no newline (the end-of-text backtracking branch is unreachable there because
it would require the text to end in whitespace). -/
theorem tryFieldAt_dotPlus_good {label s v : Str} (hs : lastNotSpace s)
    (h : tryFieldAt label FieldKind.dotPlus s = some v) :
    ∃ c r, v = c :: r ∧ isPySpace c = false ∧ '\n' ∉ v := by
  rw [tryFieldAt] at h
  rcases hl : stripCaselessLit label s with _ | r1 <;> rw [hl] at h
  · cases h
  · simp only at h
    split at h
    · rename_i r3 hcolon
      split at h
      · rename_i hdw
        split at h
        · cases h
        · rename_i lc wr hw
          split at h
          · cases h
          · rename_i hlc
            exfalso
            have hr3 : r3.takeWhile isPySpace = r3 := by
              rw [List.takeWhile_eq_self_iff]
              intro x hx
              have hall := List.dropWhile_eq_nil_iff.mp hdw
              exact hall x hx
            have hmem : lc ∈ r3.takeWhile isPySpace := by
              rw [← List.mem_reverse, hw]
              exact List.mem_cons_self _ _
            have hsp : isPySpace lc = true := List.mem_takeWhile_imp hmem
            have hr3last : lastNotSpace r3 := by
              apply lastNotSpace_of_sfx ?_ hs
              have h1 : r3 <:+ (':' :: r3) := List.suffix_cons ':' r3
              have h2 : (':' :: r3) <:+ r1 := by
                rw [← hcolon]
                exact List.dropWhile_suffix isPySpace
              exact (h1.trans h2).trans (stripCaselessLit_sfx hl)
            have : isPySpace lc = false := by
              apply hr3last
              rw [hr3] at hw
              rw [hw]
              rfl
            rw [hsp] at this
            cases this
      · rename_i c r hdw
        rw [Option.some.injEq] at h
        have hc : isPySpace c = false := dropWhile_cons_head_false hdw
        have hcn : c ≠ '\n' := by
          intro hx
          rw [hx] at hc
          simp [isPySpace] at hc
        refine ⟨c, (r.takeWhile (fun x => decide (x ≠ '\n'))), ?_, hc, ?_⟩
        · rw [← h, List.takeWhile_cons]
          simp [hcn]
        · intro hmem
          rw [← h] at hmem
          have := List.mem_takeWhile_imp hmem
          simp at this
    · cases h

/-- searchField only tries positions that are suffixes, so the capture
property transfers from tryFieldAt. -/
theorem searchField_dotPlus_good {label t v : Str} (ht : lastNotSpace t)
    (h : searchField label FieldKind.dotPlus t = some v) :
    ∃ c r, v = c :: r ∧ isPySpace c = false ∧ '\n' ∉ v := by
  induction t with
  | nil => cases h
  | cons a u ih =>
    rw [searchField] at h
    split at h
    · rename_i v' htry
      rw [Option.some.injEq] at h
      subst h
      exact tryFieldAt_dotPlus_good ht htry
    · exact ih (lastNotSpace_of_sfx (List.suffix_cons a u) ht) h

/-- A successful (\d+) capture of tryFieldAt is a non-empty run of digits. -/
theorem tryFieldAt_digits_good {label suf s v : Str}
    (h : tryFieldAt label (FieldKind.digitsThen suf) s = some v) :
    v ≠ [] ∧ ∀ x ∈ v, isPyDigit x = true := by
  rw [tryFieldAt] at h
  rcases hl : stripCaselessLit label s with _ | r1 <;> rw [hl] at h
  · cases h
  · simp only at h
    split at h
    · rename_i r3 _hcolon
      split at h
      · cases h
      · rename_i hne
        split at h
        · rw [Option.some.injEq] at h
          subst h
          refine ⟨by simpa [List.isEmpty_iff] using hne, fun x hx => List.mem_takeWhile_imp hx⟩
        · cases h
    · cases h

/-- A successful ([\d,\.]+) capture of tryFieldAt is a non-empty run of
class characters. -/
theorem tryFieldAt_class_good {label suf s v : Str}
    (h : tryFieldAt label (FieldKind.classThen suf) s = some v) :
    v ≠ [] ∧ ∀ x ∈ v, isHostChar x = true := by
  rw [tryFieldAt] at h
  rcases hl : stripCaselessLit label s with _ | r1 <;> rw [hl] at h
  · cases h
  · simp only at h
    split at h
    · rename_i r3 _hcolon
      split at h
      · cases h
      · rename_i hne
        split at h
        · rw [Option.some.injEq] at h
          subst h
          refine ⟨by simpa [List.isEmpty_iff] using hne, fun x hx => List.mem_takeWhile_imp hx⟩
        · cases h
    · cases h

/-- searchField wrapper for the digits capture. -/
theorem searchField_digits_good {label suf t v : Str}
    (h : searchField label (FieldKind.digitsThen suf) t = some v) :
    v ≠ [] ∧ ∀ x ∈ v, isPyDigit x = true := by
  induction t with
  | nil => cases h
  | cons a u ih =>
    rw [searchField] at h
    split at h
    · rename_i v' htry
      rw [Option.some.injEq] at h
      subst h
      exact tryFieldAt_digits_good htry
    · exact ih h

/-- searchField wrapper for the class capture. -/
theorem searchField_class_good {label suf t v : Str}
    (h : searchField label (FieldKind.classThen suf) t = some v) :
    v ≠ [] ∧ ∀ x ∈ v, isHostChar x = true := by
  induction t with
  | nil => cases h
  | cons a u ih =>
    rw [searchField] at h
    split at h
    · rename_i v' htry
      rw [Option.some.injEq] at h
      subst h
      exact tryFieldAt_class_good htry
    · exact ih h

/-- Field-value invariant for the six fields other than Host Writes: the
sentinel, or a non-empty single-line string with no leading or trailing
whitespace. -/
def goodValue (v : Str) : Prop :=
  v = sentinelNA ∨ (v ≠ [] ∧ '\n' ∉ v ∧ pyStrip v = v)

/-- Field-value invariant for Host Writes: the sentinel, or a single-line
string with no leading or trailing whitespace — possibly empty, because the
captured [\d,\.]+ run may consist of commas only, all removed by replace. -/
def goodHW (v : Str) : Prop :=
  v = sentinelNA ∨ ('\n' ∉ v ∧ pyStrip v = v)

/-- extract_field with a (.+) capture on a text ending in non-whitespace
satisfies the field-value invariant. -/
theorem extract_field_dotPlus_good {t label : Str} (ht : lastNotSpace t) :
    goodValue (extract_field t label FieldKind.dotPlus) := by
  unfold extract_field
  rcases hs : searchField label FieldKind.dotPlus t with _ | v
  · left; rfl
  · right
    obtain ⟨c, r, hv, hc, hnl⟩ := searchField_dotPlus_good ht hs
    subst hv
    refine ⟨pyStrip_cons_ne_nil hc, ?_, pyStrip_idem _⟩
    intro hmem
    exact hnl (mem_of_mem_pyStrip hmem)

/-- extract_field with a (\d+) capture satisfies the field-value
invariant. -/
theorem extract_field_digits_good (t label suf : Str) :
    goodValue (extract_field t label (FieldKind.digitsThen suf)) := by
  unfold extract_field
  rcases hs : searchField label (FieldKind.digitsThen suf) t with _ | v
  · left; rfl
  · right
    show pyStrip v ≠ [] ∧ '\n' ∉ pyStrip v ∧ pyStrip (pyStrip v) = pyStrip v
    obtain ⟨hne, hall⟩ := searchField_digits_good hs
    have hstrip : pyStrip v = v :=
      pyStrip_eq_self_of_all (fun x hx => digit_not_space (hall x hx))
    rw [hstrip]
    exact ⟨hne, fun hmem => digit_ne_nl (hall _ hmem) rfl, hstrip⟩

/-- The Host Writes entry satisfies its field-value invariant. -/
theorem hostWritesField_good (t : Str) : goodHW (hostWritesField t) := by
  unfold hostWritesField extract_field
  rcases hs : searchField "Host Writes".toList (FieldKind.classThen "GB".toList) t with _ | v
  · show goodHW (if (sentinelNA : Str).isEmpty then sentinelNA else removeCommas sentinelNA)
    left
    decide
  · show goodHW (if (pyStrip v).isEmpty then sentinelNA else removeCommas (pyStrip v))
    obtain ⟨hne, hall⟩ := searchField_class_good hs
    have hstrip : pyStrip v = v :=
      pyStrip_eq_self_of_all (fun x hx => hostChar_not_space (hall x hx))
    rw [hstrip]
    split
    · left; rfl
    · right
      constructor
      · intro hmem
        unfold removeCommas at hmem
        rw [List.mem_filter] at hmem
        exact hostChar_ne_nl (hall _ hmem.1) rfl
      · apply pyStrip_eq_self_of_all
        intro x hx
        unfold removeCommas at hx
        rw [List.mem_filter] at hx
        exact hostChar_not_space (hall _ hx.1)

/-- Every record returned by get_storage_log is built by mkDiskInfo from a
stripped detail section. -/
theorem mem_get_storage_log {s : Str} {d : DiskInfo} (hd : d ∈ get_storage_log s) :
    ∃ sec, d = mkDiskInfo (pyStrip sec) := by
  unfold get_storage_log at hd
  rcases h : disk_list_search s with _ | l <;> simp only [h] at hd
  · cases hd
  · split at hd
    · cases hd
    · split at hd
      · cases hd
      · rw [List.mem_filterMap] at hd
        obtain ⟨sec, _, hsec⟩ := hd
        split at hsec
        · cases hsec
        · rw [Option.some.injEq] at hsec
          exact ⟨sec, hsec.symm⟩

/-- C10 (amended): every field of every record returned by get_storage_log
is the sentinel "N/A" or a single-line string with no leading or trailing
whitespace; the six fields other than Host Writes are additionally non-empty
when populated, while Host Writes can be the empty string (a comma-only
capture emptied by the comma removal). -/
theorem C10_fields_sentinel_or_stripped_single_line (s : Str) (d : DiskInfo)
    (hd : d ∈ get_storage_log s) :
    goodValue d.Model ∧ goodValue d.DiskSize ∧ goodValue d.Interface ∧
    goodValue d.PowerOnHours ∧ goodValue d.PowerOnCount ∧
    goodHW d.HostWrites ∧ goodValue d.HealthStatus := by
  obtain ⟨sec, hdef⟩ := mem_get_storage_log hd
  subst hdef
  have hlast := lastNotSpace_pyStrip sec
  exact ⟨extract_field_dotPlus_good hlast, extract_field_dotPlus_good hlast,
         extract_field_dotPlus_good hlast, extract_field_digits_good .. ,
         extract_field_digits_good .. , hostWritesField_good _,
         extract_field_dotPlus_good hlast⟩

/-- The detail block with the Host Writes amount replaced by a bare comma. -/
def exFieldsHW : String :=
  "Model : TestDisk\n Disk Size : 500.1 GB\n Interface : Serial ATA\n Power On Hours : 8760 時間\n Power On Count : 100 回\n Host Writes : , GB\n Health Status : 正常"

/-- A raw report whose Host Writes line carries a comma-only amount. -/
def exTextHW : Str := mkExText exFieldsHW

/-- Counterexample to C10 as stated: the record parsed from exTextHW has a
Host Writes value that is the empty string — populated (not the sentinel)
yet empty, because the capture "," is erased by the comma removal. -/
theorem C10_counterexample_empty_host_writes :
    (get_storage_log exTextHW).map (fun d => d.HostWrites) = [[]] ∧
    ([] : Str) ≠ sentinelNA := by
  constructor
  · decide
  · decide

/-- Witness for C10 (amended) at a concrete input. -/
theorem C10_fields_sentinel_or_stripped_single_line_witness :
    goodValue exRecord.Model ∧ goodValue exRecord.DiskSize ∧
    goodValue exRecord.Interface ∧ goodValue exRecord.PowerOnHours ∧
    goodValue exRecord.PowerOnCount ∧ goodHW exRecord.HostWrites ∧
    goodValue exRecord.HealthStatus :=
  C10_fields_sentinel_or_stripped_single_line exText exRecord (by decide)

/-- The detail block with the power-on-hours count written with a grouping
separator, as in the claim's scenario. -/
def exFieldsComma : String :=
  "Model : TestDisk\n Disk Size : 500.1 GB\n Interface : Serial ATA\n Power On Hours : 8,760 時間\n Power On Count : 100 回\n Host Writes : 1,234 GB\n Health Status : 正常"

/-- A raw report whose Power On Hours line reads "Power On Hours : 8,760 時間". -/
def exTextComma : Str := mkExText exFieldsComma

/-- Counterexample to C2 as stated: on the block whose power-on-hours line
carries the grouping separator, the parsed Power On Hours field is the
sentinel "N/A", not "8760" — the capture group (\d+) admits no comma, so the
pattern fails to match. -/
theorem C2_counterexample_comma_gives_sentinel :
    (get_storage_log exTextComma).map (fun d => d.PowerOnHours) = [sentinelNA] ∧
    sentinelNA ≠ "8760".toList := by
  constructor
  · decide
  · decide

/-- C2 (amended): the parser extracts the power-on-hours count with the
locale unit suffix 時間 stripped only when the digits carry no grouping
separator: "Power On Hours : 8760 時間" yields "8760", while
"Power On Hours : 8,760 時間" yields the sentinel "N/A". -/
theorem C2_power_on_hours_unit_stripped_digits_only :
    (get_storage_log exText).map (fun d => d.PowerOnHours) = ["8760".toList] ∧
    (get_storage_log exTextComma).map (fun d => d.PowerOnHours) = [sentinelNA] := by
  constructor
  · decide
  · decide

/-- The seven key/value pairs of one record, in the source's dict insertion
order. -/
def toPairs (d : DiskInfo) : List (Str × Str) :=
  [("Model".toList, d.Model), ("Disk Size".toList, d.DiskSize),
   ("Interface".toList, d.Interface), ("Power On Hours".toList, d.PowerOnHours),
   ("Power On Count".toList, d.PowerOnCount), ("Host Writes".toList, d.HostWrites),
   ("Health Status".toList, d.HealthStatus)]

/-- The fixed key list of every record. -/
def fieldLabels : List Str :=
  ["Model".toList, "Disk Size".toList, "Interface".toList,
   "Power On Hours".toList, "Power On Count".toList, "Host Writes".toList,
   "Health Status".toList]

/-- The detail block of the example report without its Health Status line. -/
def exFieldsMissing : String :=
  "Model : TestDisk\n Disk Size : 500.1 GB\n Interface : Serial ATA\n Power On Hours : 8760 時間\n Power On Count : 100 回\n Host Writes : 1,234 GB"

/-- A raw report whose detail block lacks exactly the Health Status line. -/
def exTextMissing : Str := mkExText exFieldsMissing

/-- The record extracted from exTextMissing: Health Status defaults to the
sentinel, every other field is populated from the block. -/
def exRecordMissing : DiskInfo :=
  ⟨"TestDisk".toList, "500.1 GB".toList, "Serial ATA".toList, "8760".toList,
   "100".toList, "1234".toList, sentinelNA⟩

/-- C6: every record returned by get_storage_log carries exactly the seven
fields Model, Disk Size, Interface, Power On Hours, Power On Count,
Host Writes, Health Status (each bound to a value or to the sentinel); and on
a detail block missing exactly the Health Status line the returned record
has that field bound to the sentinel and every other field populated from
the block. -/
theorem C6_records_have_exactly_seven_fields :
    (∀ s d, d ∈ get_storage_log s → (toPairs d).map Prod.fst = fieldLabels) ∧
    get_storage_log exTextMissing = [exRecordMissing] := by
  constructor
  · intro s d _
    rfl
  · decide

/-- Witness for the quantified part of C6 at a concrete input. -/
theorem C6_records_have_exactly_seven_fields_witness :
    (toPairs exRecordMissing).map Prod.fst = fieldLabels :=
  C6_records_have_exactly_seven_fields.1 exTextMissing exRecordMissing
    (by rw [C6_records_have_exactly_seven_fields.2]; exact List.mem_singleton.mpr rfl)

/-- Newest-first ordering on catalog files. -/
def mtimeGE (a b : LogFile) : Prop :=
  b.mtime ≤ a.mtime

/-- Inserting permutes: the result holds the new element and the old ones. -/
theorem sortInsertDesc_perm (x : LogFile) (l : List LogFile) :
    List.Perm (sortInsertDesc x l) (x :: l) := by
  induction l with
  | nil => rfl
  | cons y ys ih =>
    rw [sortInsertDesc]
    split
    · rfl
    · exact (List.Perm.cons y ih).trans (List.Perm.swap x y ys)

/-- The stable descending sort permutes its input. -/
theorem sortByMtimeDesc_perm (l : List LogFile) :
    List.Perm (sortByMtimeDesc l) l := by
  induction l with
  | nil => rfl
  | cons y ys ih =>
    have h1 : sortByMtimeDesc (y :: ys) = sortInsertDesc y (sortByMtimeDesc ys) := rfl
    rw [h1]
    exact (sortInsertDesc_perm y (sortByMtimeDesc ys)).trans (List.Perm.cons y ih)

/-- Members of an insertion are the new element or old members. -/
theorem mem_sortInsertDesc {b x : LogFile} {l : List LogFile}
    (h : b ∈ sortInsertDesc x l) : b = x ∨ b ∈ l :=
  List.mem_cons.mp ((sortInsertDesc_perm x l).mem_iff.mp h)

/-- Inserting into a newest-first sorted list keeps it sorted. -/
theorem sortInsertDesc_sorted {x : LogFile} {l : List LogFile}
    (h : List.Sorted mtimeGE l) : List.Sorted mtimeGE (sortInsertDesc x l) := by
  induction l with
  | nil => simp [sortInsertDesc]
  | cons y ys ih =>
    rw [List.sorted_cons] at h
    obtain ⟨hy, hys⟩ := h
    rw [sortInsertDesc]
    split
    · rename_i hle
      rw [List.sorted_cons]
      refine ⟨?_, List.sorted_cons.mpr ⟨hy, hys⟩⟩
      intro b hb
      rcases List.mem_cons.mp hb with hb1 | hb2
      · subst hb1
        exact hle
      · have h1 : b.mtime ≤ y.mtime := hy b hb2
        show b.mtime ≤ x.mtime
        omega
    · rename_i hgt
      rw [List.sorted_cons]
      refine ⟨?_, ih hys⟩
      intro b hb
      rcases mem_sortInsertDesc hb with hbx | hbl
      · rw [hbx]
        show x.mtime ≤ y.mtime
        omega
      · exact hy b hbl

/-- The stable descending sort is sorted newest-first. -/
theorem sortByMtimeDesc_sorted (l : List LogFile) :
    List.Sorted mtimeGE (sortByMtimeDesc l) := by
  induction l with
  | nil => simp [sortByMtimeDesc]
  | cons y ys ih => exact sortInsertDesc_sorted ih

/-- A name matching the storage_info_log_*.txt pattern contains no path
separator: the fixed head and tail contain none and the glob star excludes
them. -/
theorem glob_matches_no_sep {nm : Str} (h : glob_matches nm = true) :
    '/' ∉ nm ∧ '\\' ∉ nm := by
  have hL1 : ("storage_info_log_".toList : Str).length = 17 := by decide
  have hL2 : (".txt".toList : Str).length = 4 := by decide
  unfold glob_matches at h
  simp only [Bool.and_eq_true, decide_eq_true_eq] at h
  obtain ⟨⟨⟨hlen, hpre⟩, hsuf⟩, hmid⟩ := h
  rw [hL1, hL2] at hlen hmid
  rw [Option.isSome_iff_exists] at hpre
  obtain ⟨rest, hrest⟩ := hpre
  have hnm : nm = "storage_info_log_".toList ++ rest := stripLit_spec hrest
  rw [List.isSuffixOf_iff_suffix] at hsuf
  obtain ⟨u, hu⟩ := hsuf
  have hlist : nm.length = 17 + rest.length := by
    rw [hnm, List.length_append, hL1]
  have hulen : u.length = 13 + rest.length := by
    have hcu := congrArg List.length hu
    rw [List.length_append, hL2] at hcu
    omega
  have hdropnm : nm.drop 17 = rest := by
    rw [hnm, ← hL1, List.drop_left]
  have hmid2 : (rest.take (rest.length - 4)).all
      (fun c => !(c == '/') && !(c == '\\')) = true := by
    rw [hdropnm] at hmid
    have harith : nm.length - 17 - 4 = rest.length - 4 := by omega
    rw [harith] at hmid
    exact hmid
  have hdrop4 : rest.drop (rest.length - 4) = ".txt".toList := by
    have hx : nm.drop u.length = ".txt".toList := by
      rw [← hu, List.drop_left]
    rw [hnm] at hx
    have hdd : ("storage_info_log_".toList ++ rest).drop u.length =
        rest.drop (u.length - 17) := by
      rw [List.drop_append_eq_append_drop]
      have hz : ("storage_info_log_".toList : Str).drop u.length = [] := by
        apply List.drop_eq_nil_of_le
        omega
      rw [hz, List.nil_append, hL1]
    rw [hdd] at hx
    have hy : u.length - 17 = rest.length - 4 := by omega
    rw [hy] at hx
    exact hx
  constructor
  · intro hc
    rw [hnm, List.mem_append] at hc
    rcases hc with hc | hc
    · revert hc
      decide
    · rw [← List.take_append_drop (rest.length - 4) rest, List.mem_append] at hc
      rcases hc with hc | hc
      · have := (List.all_eq_true.mp hmid2) _ hc
        simp at this
      · rw [hdrop4] at hc
        revert hc
        decide
  · intro hc
    rw [hnm, List.mem_append] at hc
    rcases hc with hc | hc
    · revert hc
      decide
    · rw [← List.take_append_drop (rest.length - 4) rest, List.mem_append] at hc
      rcases hc with hc | hc
      · have := (List.all_eq_true.mp hmid2) _ hc
        simp at this
      · rw [hdrop4] at hc
        revert hc
        decide

/-- C8: search_storage_log returns exactly the bare names of the files
matching the storage_info_log_*.txt convention, sorted by modification time
descending (stably, as Python's sorted with reverse=True), with no age-based
filtering: membership depends only on the name pattern, never on the
modification time, and every returned name is a bare file name (it contains
no path separator). -/
theorem C8_catalog_bare_names_sorted_desc_no_age_filter (files : List LogFile) :
    search_storage_log files =
      (sortByMtimeDesc (files.filter (fun f => glob_matches f.name))).map
        (fun f => f.name) ∧
    List.Perm (sortByMtimeDesc (files.filter (fun f => glob_matches f.name)))
      (files.filter (fun f => glob_matches f.name)) ∧
    List.Sorted mtimeGE
      (sortByMtimeDesc (files.filter (fun f => glob_matches f.name))) ∧
    (∀ nm, nm ∈ search_storage_log files ↔
      ∃ f ∈ files, glob_matches f.name = true ∧ f.name = nm) ∧
    (∀ nm ∈ search_storage_log files, '/' ∉ nm ∧ '\\' ∉ nm) := by
  have h1 : search_storage_log files =
      (sortByMtimeDesc (files.filter (fun f => glob_matches f.name))).map
        (fun f => f.name) := by
    show (if (files.filter (fun f => glob_matches f.name)).isEmpty = true then []
          else (sortByMtimeDesc (files.filter (fun f => glob_matches f.name))).map
            (fun f => f.name)) =
        (sortByMtimeDesc (files.filter (fun f => glob_matches f.name))).map
          (fun f => f.name)
    split
    · rename_i he
      rw [List.isEmpty_iff] at he
      rw [he]
      rfl
    · rfl
  have hmem : ∀ nm, nm ∈ search_storage_log files ↔
      ∃ f ∈ files, glob_matches f.name = true ∧ f.name = nm := by
    intro nm
    rw [h1, List.mem_map]
    constructor
    · rintro ⟨f, hf, hfn⟩
      have hf2 := (sortByMtimeDesc_perm _).mem_iff.mp hf
      rw [List.mem_filter] at hf2
      exact ⟨f, hf2.1, hf2.2, hfn⟩
    · rintro ⟨f, hf, hg, hfn⟩
      refine ⟨f, ?_, hfn⟩
      apply (sortByMtimeDesc_perm _).mem_iff.mpr
      rw [List.mem_filter]
      exact ⟨hf, hg⟩
  refine ⟨h1, sortByMtimeDesc_perm _, sortByMtimeDesc_sorted _, hmem, ?_⟩
  intro nm hnm
  obtain ⟨f, _, hg, hfn⟩ := (hmem nm).mp hnm
  rw [← hfn]
  exact glob_matches_no_sep hg

/-- Files for the C8 witness: two matching names at distinct times and one
non-matching name with the newest time. -/
def exFiles : List LogFile :=
  [⟨"storage_info_log_20240101_000000.txt".toList, 5⟩,
   ⟨"storage_info_log_20250101_000000.txt".toList, 9⟩,
   ⟨"other.txt".toList, 50⟩]

/-- Witness for C8 at a concrete catalog: the non-matching file is excluded
and the two matching names come back newest first. -/
theorem C8_catalog_bare_names_sorted_desc_no_age_filter_witness :
    search_storage_log exFiles =
      ["storage_info_log_20250101_000000.txt".toList,
       "storage_info_log_20240101_000000.txt".toList] :=
  ((C8_catalog_bare_names_sorted_desc_no_age_filter exFiles).1).trans (by decide)

/-- Values as produced by the parser: single-line and stripped. -/
def goodVal (v : Str) : Prop :=
  '\n' ∉ v ∧ pyStrip v = v

/-- A record all of whose field values are single-line and stripped — the
shape of every record get_storage_log produces. -/
def goodRec (d : DiskInfo) : Prop :=
  goodVal d.Model ∧ goodVal d.DiskSize ∧ goodVal d.Interface ∧
  goodVal d.PowerOnHours ∧ goodVal d.PowerOnCount ∧ goodVal d.HostWrites ∧
  goodVal d.HealthStatus

/-- digitChar output is a decimal digit. -/
theorem digitChar_isDigit (n : Nat) : isPyDigit (digitChar n) = true := by
  unfold digitChar
  repeat' split
  all_goals decide

/-- natDigits is non-empty and consists of decimal digits. -/
theorem natDigits_digits (n : Nat) :
    natDigits n ≠ [] ∧ ∀ c ∈ natDigits n, isPyDigit c = true := by
  induction n using Nat.strong_induction_on with
  | _ n ih =>
    rw [natDigits]
    split
    · refine ⟨by simp, ?_⟩
      intro c hc
      rw [List.mem_singleton] at hc
      rw [hc]
      exact digitChar_isDigit n
    · rename_i hge
      have hn : 0 < n := by omega
      obtain ⟨_, hall⟩ := ih (n / 10) (Nat.div_lt_self hn (by decide))
      refine ⟨by simp, ?_⟩
      intro c hc
      rw [List.mem_append] at hc
      rcases hc with hc | hc
      · exact hall c hc
      · rw [List.mem_singleton] at hc
        rw [hc]
        exact digitChar_isDigit (n % 10)

/-- takeWhile over an all-satisfying front distributes. -/
theorem takeWhile_append_all {p : Char → Bool} {l₁ l₂ : Str}
    (h : ∀ x ∈ l₁, p x = true) :
    (l₁ ++ l₂).takeWhile p = l₁ ++ l₂.takeWhile p := by
  induction l₁ with
  | nil => simp
  | cons a t ih =>
    rw [List.cons_append, List.takeWhile_cons, h a (List.mem_cons_self a t)]
    simp only [if_true, List.cons_append, List.cons.injEq, true_and]
    exact ih (fun x hx => h x (List.mem_cons_of_mem a hx))

/-- dropWhile over an all-satisfying front skips it. -/
theorem dropWhile_append_all {p : Char → Bool} {l₁ l₂ : Str}
    (h : ∀ x ∈ l₁, p x = true) :
    (l₁ ++ l₂).dropWhile p = l₂.dropWhile p := by
  induction l₁ with
  | nil => simp
  | cons a t ih =>
    rw [List.cons_append, List.dropWhile_cons, h a (List.mem_cons_self a t)]
    simp only [if_true]
    exact ih (fun x hx => h x (List.mem_cons_of_mem a hx))

/-- takeWhile stops at a failing head. -/
theorem takeWhile_cons_false {p : Char → Bool} {a : Char} {l : Str}
    (h : p a = false) : (a :: l).takeWhile p = [] := by
  rw [List.takeWhile_cons, h]
  rfl

/-- dropWhile keeps a failing head. -/
theorem dropWhile_cons_false {p : Char → Bool} {a : Char} {l : Str}
    (h : p a = false) : (a :: l).dropWhile p = a :: l := by
  rw [List.dropWhile_cons, h]
  rfl

/-- Digits are not the colon character. -/
theorem digit_ne_colon {x : Char} (h : isPyDigit x = true) : x ≠ ':' := by
  intro hx
  rw [hx] at h
  simp [isPyDigit] at h

/-- The seven serialized field lines of one record. -/
def linesCat (d : DiskInfo) : Str :=
  fieldLine "  Model: ".toList d.Model ++
  fieldLine "  Disk Size: ".toList d.DiskSize ++
  fieldLine "  Interface: ".toList d.Interface ++
  fieldLine "  Power On Hours: ".toList d.PowerOnHours ++
  fieldLine "  Power On Count: ".toList d.PowerOnCount ++
  fieldLine "  Host Writes: ".toList d.HostWrites ++
  fieldLine "  Health Status: ".toList d.HealthStatus

/-- The part of one serialized device block matched by DISK_INFO_PATTERN:
header line plus the seven field lines, without the trailing blank line. -/
def blockBody (idx : Nat) (d : DiskInfo) : Str :=
  "ディスク ".toList ++ natDigits idx ++ ":\n".toList ++ linesCat d

/-- One serialized block is its matched body plus the blank separator
line. -/
theorem save_block_eq (idx : Nat) (d : DiskInfo) :
    save_block idx d = blockBody idx d ++ ['\n'] := by
  unfold save_block blockBody linesCat
  simp [List.append_assoc]

/-- The line-pair list of one record: per field line, the text between the
two leading spaces and the value, and the value. -/
def linePairs (d : DiskInfo) : List (Str × Str) :=
  [("Model: ".toList, d.Model), ("Disk Size: ".toList, d.DiskSize),
   ("Interface: ".toList, d.Interface), ("Power On Hours: ".toList, d.PowerOnHours),
   ("Power On Count: ".toList, d.PowerOnCount), ("Host Writes: ".toList, d.HostWrites),
   ("Health Status: ".toList, d.HealthStatus)]

/-- Nested-cons shape of a run of serialized lines followed by a tail. -/
def catLines : List (Str × Str) → Str → Str
  | [], t => t
  | (inn, v) :: ls, t => ' ' :: ' ' :: ((inn ++ v) ++ '\n' :: catLines ls t)

/-- The text consumed by the line group on such a run. -/
def consumedOf : List (Str × Str) → Str
  | [] => []
  | (inn, v) :: ls => ' ' :: ' ' :: ((inn ++ v) ++ '\n' :: consumedOf ls)

/-- The line group consumes exactly a run of well-formed lines, stopping at
a tail that is not a line. -/
theorem consumeLines_catLines (ls : List (Str × Str)) (hne : ls ≠ [])
    (h : ∀ p ∈ ls, (p.1 ++ p.2 : Str) ≠ [] ∧ '\n' ∉ (p.1 ++ p.2 : Str))
    (t : Str) (ht : lineAt t = none) :
    consumeLines (catLines ls t) = some (consumedOf ls, t) := by
  induction ls with
  | nil => exact absurd rfl hne
  | cons p ls' ih =>
    obtain ⟨inn, v⟩ := p
    obtain ⟨hpne, hpnl⟩ := h (inn, v) (List.mem_cons_self _ _)
    rw [catLines, consumeLines_step (lineAt_append hpne hpnl)]
    by_cases hls' : ls' = []
    · subst hls'
      rw [show catLines ([] : List (Str × Str)) t = t from rfl, consumeLines_none ht]
      rfl
    · rw [ih hls' (fun q hq => h q (List.mem_cons_of_mem _ hq))]
      rfl

/-- lineAt never matches at a newline. -/
theorem lineAt_nl (rest : Str) : lineAt ('\n' :: rest) = none := by
  rcases rest with _ | ⟨b, r⟩
  · rfl
  · rw [lineAt]
    rw [if_neg]
    intro hcontra
    exact absurd hcontra.1 (by decide)

/-- DISK_INFO_PATTERN matches exactly a well-formed serialized block: the
literal head, one space, a non-empty digit run, colon, newline, then a
non-empty run of well-formed lines, stopping at a tail that is not a line. -/
theorem matchDiskInfoAt_shape {dg : Str} (hdg : dg ≠ [])
    (hall : ∀ c ∈ dg, isPyDigit c = true)
    {ls : List (Str × Str)} (hls : ls ≠ [])
    (hp : ∀ p ∈ ls, (p.1 ++ p.2 : Str) ≠ [] ∧ '\n' ∉ (p.1 ++ p.2 : Str))
    {t : Str} (ht : lineAt t = none) :
    matchDiskInfoAt (diskInfoHead ++ ' ' :: (dg ++ ':' :: '\n' :: catLines ls t)) =
      some (diskInfoHead ++ ' ' :: (dg ++ ':' :: '\n' :: consumedOf ls), t) := by
  rcases dg with _ | ⟨c0, ct⟩
  · exact absurd rfl hdg
  have hc0 : isPyDigit c0 = true := hall c0 (List.mem_cons_self _ _)
  have htw : (' ' :: ((c0 :: ct) ++ ':' :: '\n' :: catLines ls t)).takeWhile isPySpace
      = [' '] := by
    rw [List.takeWhile_cons]
    simp only [show isPySpace ' ' = true from rfl, if_true, List.cons_append]
    rw [takeWhile_cons_false (digit_not_space hc0)]
  have hdw : (' ' :: ((c0 :: ct) ++ ':' :: '\n' :: catLines ls t)).dropWhile isPySpace
      = (c0 :: ct) ++ ':' :: '\n' :: catLines ls t := by
    rw [List.dropWhile_cons]
    simp only [show isPySpace ' ' = true from rfl, if_true, List.cons_append]
    rw [dropWhile_cons_false (digit_not_space hc0)]
  have htk2 : ((c0 :: ct) ++ ':' :: '\n' :: catLines ls t).takeWhile isPyDigit
      = c0 :: ct := by
    rw [takeWhile_append_all hall, takeWhile_cons_false (by decide : isPyDigit ':' = false)]
    simp
  have hdw2 : ((c0 :: ct) ++ ':' :: '\n' :: catLines ls t).dropWhile isPyDigit
      = ':' :: '\n' :: catLines ls t := by
    rw [dropWhile_append_all hall, dropWhile_cons_false (by decide : isPyDigit ':' = false)]
  rw [matchDiskInfoAt, stripLit_append]
  simp only [htw, hdw, htk2, hdw2, List.isEmpty_cons, Bool.false_eq_true, if_false,
    consumeLines_catLines ls hls hp t ht]
  simp [List.append_assoc]

/-- The serialized lines of a record in nested line form. -/
theorem linesCat_eq_catLines (d : DiskInfo) (t : Str) :
    linesCat d ++ t = catLines (linePairs d) t := by
  have e1 : ("  Model: ".toList : Str) = ' ' :: ' ' :: "Model: ".toList := by decide
  have e2 : ("  Disk Size: ".toList : Str) = ' ' :: ' ' :: "Disk Size: ".toList := by decide
  have e3 : ("  Interface: ".toList : Str) = ' ' :: ' ' :: "Interface: ".toList := by decide
  have e4 : ("  Power On Hours: ".toList : Str) =
      ' ' :: ' ' :: "Power On Hours: ".toList := by decide
  have e5 : ("  Power On Count: ".toList : Str) =
      ' ' :: ' ' :: "Power On Count: ".toList := by decide
  have e6 : ("  Host Writes: ".toList : Str) = ' ' :: ' ' :: "Host Writes: ".toList := by decide
  have e7 : ("  Health Status: ".toList : Str) =
      ' ' :: ' ' :: "Health Status: ".toList := by decide
  unfold linesCat fieldLine
  simp only [linePairs, catLines]
  rw [e1, e2, e3, e4, e5, e6, e7]
  simp [List.append_assoc]

/-- The consumed text of the line group on a record's lines is exactly the
serialized lines. -/
theorem consumedOf_linePairs (d : DiskInfo) : consumedOf (linePairs d) = linesCat d := by
  have h := linesCat_eq_catLines d []
  rw [List.append_nil] at h
  rw [h]
  generalize linePairs d = ls
  induction ls with
  | nil => rfl
  | cons p ls ih =>
    obtain ⟨inn, v⟩ := p
    rw [consumedOf, catLines, ih]

/-- The serialized block body in the shape lemma's form. -/
theorem blockBody_shape (idx : Nat) (d : DiskInfo) (t : Str) :
    blockBody idx d ++ t =
      diskInfoHead ++ ' ' :: (natDigits idx ++ ':' :: '\n' :: (linesCat d ++ t)) := by
  have hdk : ("ディスク ".toList : Str) = diskInfoHead ++ [' '] := by decide
  have hcl : (":\n".toList : Str) = [':', '\n'] := by decide
  unfold blockBody
  rw [hdk, hcl]
  simp [List.append_assoc]

/-- DISK_INFO_PATTERN matches a serialized block of a good record exactly,
leaving the blank separator line and everything after it. -/
theorem matchDiskInfoAt_block (idx : Nat) (d : DiskInfo) (hd : goodRec d) (rest : Str) :
    matchDiskInfoAt (blockBody idx d ++ '\n' :: rest) =
      some (blockBody idx d, '\n' :: rest) := by
  obtain ⟨hM, hDS, hI, hPH, hPC, hHW, hHS⟩ := hd
  obtain ⟨hdne, hdall⟩ := natDigits_digits idx
  have hpairs : ∀ p ∈ linePairs d, (p.1 ++ p.2 : Str) ≠ [] ∧ '\n' ∉ (p.1 ++ p.2 : Str) := by
    intro p hp
    simp only [linePairs, List.mem_cons, List.not_mem_nil, or_false] at hp
    rcases hp with hp | hp | hp | hp | hp | hp | hp <;> subst hp <;> dsimp only <;>
      refine ⟨by simp, ?_⟩ <;>
      · rw [List.mem_append]
        rintro (hc | hc)
        · revert hc; decide
        · first
          | exact hM.1 hc
          | exact hDS.1 hc
          | exact hI.1 hc
          | exact hPH.1 hc
          | exact hPC.1 hc
          | exact hHW.1 hc
          | exact hHS.1 hc
  rw [blockBody_shape, linesCat_eq_catLines]
  rw [matchDiskInfoAt_shape hdne hdall (by simp [linePairs]) hpairs (lineAt_nl rest)]
  rw [consumedOf_linePairs]
  have h0 := blockBody_shape idx d []
  simp only [List.append_nil] at h0
  rw [h0]

/-- The blocks of a serialized report, one per record. -/
def blocksOf : Nat → List DiskInfo → List Str
  | _, [] => []
  | idx, d :: ds => blockBody idx d :: blocksOf (idx + 1) ds

/-- DISK_INFO_PATTERN never matches at a newline. -/
theorem matchDiskInfoAt_nl (s : Str) : matchDiskInfoAt ('\n' :: s) = none := by
  have hd : diskInfoHead = 'デ' :: "ィスク".toList := by decide
  rw [matchDiskInfoAt, hd, stripLit, if_neg (by decide)]

/-- The DISK_INFO_PATTERN scan over a serialized report finds exactly the
record blocks, in order. -/
theorem disk_info_findall_save (ds : List DiskInfo) (h : ∀ d ∈ ds, goodRec d) :
    ∀ idx, disk_info_findall (save_go idx ds) = blocksOf idx ds := by
  induction ds with
  | nil =>
    intro idx
    show disk_info_findall [] = []
    exact disk_info_findall_nil
  | cons d ds' ih =>
    intro idx
    have hgood : goodRec d := h d (List.mem_cons_self _ _)
    have hsave : save_go idx (d :: ds') = blockBody idx d ++ '\n' :: save_go (idx + 1) ds' := by
      show save_block idx d ++ save_go (idx + 1) ds' = _
      rw [save_block_eq]
      simp [List.append_assoc]
    rw [hsave, disk_info_findall_pos (matchDiskInfoAt_block idx d hgood _)]
    show _ = blockBody idx d :: blocksOf (idx + 1) ds'
    rw [disk_info_findall_neg (matchDiskInfoAt_nl _)]
    rw [ih (fun d2 hd2 => h d2 (List.mem_cons_of_mem _ hd2)) (idx + 1)]

/-- splitOnNl splits off a newline-free front line. -/
theorem splitOnNl_append {l r : Str} (h : '\n' ∉ l) :
    splitOnNl (l ++ '\n' :: r) = l :: splitOnNl r := by
  induction l with
  | nil => rfl
  | cons c t ih =>
    have hc : c ≠ '\n' := fun hx => h (hx ▸ List.mem_cons_self c t)
    have ht : '\n' ∉ t := fun hx => h (List.mem_cons_of_mem c hx)
    rw [List.cons_append, splitOnNl, if_neg hc, ih ht]

/-- splitOnNl of a newline-free text is that single line. -/
theorem splitOnNl_no_nl {l : Str} (h : '\n' ∉ l) : splitOnNl l = [l] := by
  induction l with
  | nil => rfl
  | cons c t ih =>
    have hc : c ≠ '\n' := fun hx => h (hx ▸ List.mem_cons_self c t)
    have ht : '\n' ∉ t := fun hx => h (List.mem_cons_of_mem c hx)
    rw [splitOnNl, if_neg hc, ih ht]

/-- splitFirstColon splits at the first colon. -/
theorem splitFirstColon_append {k rest : Str} (h : ':' ∉ k) :
    splitFirstColon (k ++ ':' :: rest) = (k, rest) := by
  induction k with
  | nil => rfl
  | cons c t ih =>
    have hc : c ≠ ':' := fun hx => h (hx ▸ List.mem_cons_self c t)
    have ht : ':' ∉ t := fun hx => h (List.mem_cons_of_mem c hx)
    rw [List.cons_append, splitFirstColon]
    simp only [if_neg hc, ih ht]

/-- Inserting a key absent from the dictionary appends the pair. -/
theorem dictInsert_append {dct : List (Str × Str)} {k v : Str}
    (h : ∀ p ∈ dct, p.1 ≠ k) : dictInsert dct k v = dct ++ [(k, v)] := by
  induction dct with
  | nil => rfl
  | cons p rest ih =>
    obtain ⟨k0, v0⟩ := p
    rw [dictInsert, if_neg (h (k0, v0) (List.mem_cons_self _ _)), List.cons_append]
    rw [ih (fun q hq => h q (List.mem_cons_of_mem _ hq))]

/-- Stripping a single leading space off a stripped value. -/
theorem pyStrip_space_cons {v : Str} (h : pyStrip v = v) : pyStrip (' ' :: v) = v := by
  unfold pyStrip pyDropLead at h ⊢
  rw [List.dropWhile_cons]
  simp only [show isPySpace ' ' = true from rfl, if_true]
  exact h

/-- Dropping trailing whitespace absorbs a final whitespace character. -/
theorem pyDropTrail_append_ws {X : Str} {c : Char} (hc : isPySpace c = true) :
    pyDropTrail (X ++ [c]) = pyDropTrail X := by
  unfold pyDropTrail
  rw [List.reverse_append]
  simp only [List.reverse_singleton, List.singleton_append]
  rw [List.dropWhile_cons, hc]
  simp

/-- Appending to the left preserves a non-whitespace last character. -/
theorem lastNotSpace_append_right {A v : Str} (hv : v ≠ []) (h : lastNotSpace v) :
    lastNotSpace (A ++ v) := by
  intro c hc
  apply h
  rw [List.reverse_append] at hc
  rcases hr : v.reverse with _ | ⟨a, r⟩
  · rw [List.reverse_eq_nil_iff] at hr
    exact absurd hr hv
  · rw [hr] at hc
    simpa using hc

/-- A value fixed by strip ends in a non-whitespace character. -/
theorem goodVal_lastNotSpace {v : Str} (h : pyStrip v = v) : lastNotSpace v :=
  h ▸ lastNotSpace_pyStrip v

/-- splitOnNl of a run of lines followed by a newline-free tail. -/
theorem splitOnNl_catLines (ls : List (Str × Str))
    (h : ∀ p ∈ ls, '\n' ∉ (p.1 ++ p.2 : Str)) {t : Str} (ht : '\n' ∉ t) :
    splitOnNl (catLines ls t) =
      ls.map (fun p => ' ' :: ' ' :: (p.1 ++ p.2)) ++ [t] := by
  induction ls with
  | nil => exact splitOnNl_no_nl ht
  | cons p ls' ih =>
    obtain ⟨inn, v⟩ := p
    rw [catLines]
    have hnp : '\n' ∉ (' ' :: ' ' :: (inn ++ v) : Str) := by
      rw [List.mem_cons, List.mem_cons]
      push_neg
      exact ⟨by decide, by decide, h (inn, v) (List.mem_cons_self _ _)⟩
    have hline : (' ' :: ' ' :: ((inn ++ v) ++ '\n' :: catLines ls' t) : Str) =
        (' ' :: ' ' :: (inn ++ v)) ++ '\n' :: catLines ls' t := by
      simp
    rw [hline, splitOnNl_append hnp, ih (fun q hq => h q (List.mem_cons_of_mem _ hq))]
    rfl

/-- One fold step on a serialized field line: the key is stripped, compared
against the device-header test, and the stripped value is inserted under a
fresh key at the end of the dictionary. -/
theorem parseLineStep_field (dct : List (Str × Str)) (kRaw k v : Str)
    (hsplit : ':' ∉ kRaw) (hkstrip : pyStrip kRaw = k)
    (hknot : startsWithDiskHead k = false) (hv : pyStrip v = v)
    (hins : ∀ p ∈ dct, p.1 ≠ k) :
    parseLineStep dct (kRaw ++ ':' :: ' ' :: v) = dct ++ [(k, v)] := by
  unfold parseLineStep
  have hcontains : ((kRaw ++ ':' :: ' ' :: v).contains ':') = true := by
    rw [List.elem_iff]
    exact List.mem_append_right _ (List.mem_cons_self _ _)
  simp only [hcontains, if_true]
  rw [splitFirstColon_append hsplit]
  dsimp only
  rw [hkstrip, hknot]
  simp only [Bool.false_eq_true, if_false]
  rw [pyStrip_space_cons hv, dictInsert_append hins]

/-- One fold step on a serialized field line whose value is empty (the line
ends right after the colon once the block is stripped). -/
theorem parseLineStep_field_nil (dct : List (Str × Str)) (kRaw k : Str)
    (hsplit : ':' ∉ kRaw) (hkstrip : pyStrip kRaw = k)
    (hknot : startsWithDiskHead k = false)
    (hins : ∀ p ∈ dct, p.1 ≠ k) :
    parseLineStep dct (kRaw ++ [':']) = dct ++ [(k, [])] := by
  unfold parseLineStep
  have hcontains : ((kRaw ++ [':']).contains ':') = true := by
    rw [List.elem_iff]
    exact List.mem_append_right _ (List.mem_cons_self _ _)
  simp only [hcontains, if_true]
  rw [show (kRaw ++ [':'] : Str) = kRaw ++ ':' :: [] from rfl, splitFirstColon_append hsplit]
  dsimp only
  rw [hkstrip, hknot]
  simp only [Bool.false_eq_true, if_false]
  rw [show pyStrip [] = [] from rfl, dictInsert_append hins]

/-- The fold step skips the per-device header line. -/
theorem parseLineStep_header (dct : List (Str × Str)) (dg : Str)
    (hdg : dg ≠ []) (hall : ∀ c ∈ dg, isPyDigit c = true) :
    parseLineStep dct (("ディスク ".toList ++ dg) ++ [':']) = dct := by
  unfold parseLineStep
  have hcontains : (((("ディスク ".toList ++ dg) ++ [':']) : Str).contains ':') = true := by
    rw [List.elem_iff]
    exact List.mem_append_right _ (List.mem_cons_self _ _)
  simp only [hcontains, if_true]
  have hsplit : ':' ∉ ("ディスク ".toList ++ dg : Str) := by
    rw [List.mem_append]
    rintro (hc | hc)
    · revert hc; decide
    · exact digit_ne_colon (hall ':' hc) rfl
  rw [show ((("ディスク ".toList ++ dg) ++ [':']) : Str) =
        ("ディスク ".toList ++ dg) ++ ':' :: [] from rfl,
      splitFirstColon_append hsplit]
  dsimp only
  have hstrip : pyStrip ("ディスク ".toList ++ dg) = "ディスク ".toList ++ dg := by
    apply pyStrip_eq_self
    · intro c hc
      rw [show (("ディスク ".toList ++ dg : Str)).head? = some 'デ' from rfl] at hc
      cases hc
      decide
    · apply lastNotSpace_append_right hdg
      intro c hc
      rcases hr : dg.reverse with _ | ⟨a, r⟩
      · rw [hr] at hc; cases hc
      · rw [hr] at hc
        simp only [List.head?_cons, Option.mem_def, Option.some.injEq] at hc
        subst hc
        apply digit_not_space
        apply hall
        rw [← List.mem_reverse, hr]
        exact List.mem_cons_self _ _
  rw [hstrip]
  have hstart : startsWithDiskHead ("ディスク ".toList ++ dg) = true := by
    unfold startsWithDiskHead
    rw [show ("ディスク ".toList : Str) = diskInfoHead ++ [' '] from by decide,
        List.append_assoc, stripLit_append]
    rfl
  rw [hstart]
  simp

/-- The first six line pairs of a record. -/
def sixPairs (d : DiskInfo) : List (Str × Str) :=
  [("Model: ".toList, d.Model), ("Disk Size: ".toList, d.DiskSize),
   ("Interface: ".toList, d.Interface), ("Power On Hours: ".toList, d.PowerOnHours),
   ("Power On Count: ".toList, d.PowerOnCount), ("Host Writes: ".toList, d.HostWrites)]

/-- The first six serialized field lines of a record. -/
def frontSix (d : DiskInfo) : Str :=
  fieldLine "  Model: ".toList d.Model ++
  fieldLine "  Disk Size: ".toList d.DiskSize ++
  fieldLine "  Interface: ".toList d.Interface ++
  fieldLine "  Power On Hours: ".toList d.PowerOnHours ++
  fieldLine "  Power On Count: ".toList d.PowerOnCount ++
  fieldLine "  Host Writes: ".toList d.HostWrites

/-- The stripped form of the block's last line: the trailing newline is
gone, and with an empty value the space after the colon is gone too. -/
def tail7 (d : DiskInfo) : Str :=
  if d.HealthStatus = [] then "  Health Status:".toList
  else "  Health Status: ".toList ++ d.HealthStatus

/-- The first six lines in nested line form. -/
theorem frontSix_eq_catLines (d : DiskInfo) (t : Str) :
    frontSix d ++ t = catLines (sixPairs d) t := by
  have e1 : ("  Model: ".toList : Str) = ' ' :: ' ' :: "Model: ".toList := by decide
  have e2 : ("  Disk Size: ".toList : Str) = ' ' :: ' ' :: "Disk Size: ".toList := by decide
  have e3 : ("  Interface: ".toList : Str) = ' ' :: ' ' :: "Interface: ".toList := by decide
  have e4 : ("  Power On Hours: ".toList : Str) =
      ' ' :: ' ' :: "Power On Hours: ".toList := by decide
  have e5 : ("  Power On Count: ".toList : Str) =
      ' ' :: ' ' :: "Power On Count: ".toList := by decide
  have e6 : ("  Host Writes: ".toList : Str) = ' ' :: ' ' :: "Host Writes: ".toList := by decide
  unfold frontSix fieldLine
  simp only [sixPairs, catLines]
  rw [e1, e2, e3, e4, e5, e6]
  simp [List.append_assoc]

/-- Stripping a serialized block removes exactly the trailing blank line and
the whitespace right of the final colon when the last value is empty. -/
theorem pyStrip_blockBody (idx : Nat) (d : DiskInfo) (hd : goodRec d) :
    pyStrip (blockBody idx d) =
      ("ディスク ".toList ++ natDigits idx) ++ ':' :: '\n' ::
        catLines (sixPairs d) (tail7 d) := by
  have hHS : goodVal d.HealthStatus := hd.2.2.2.2.2.2
  have hshape : blockBody idx d =
      ("ディスク ".toList ++ natDigits idx ++ ":\n".toList ++ frontSix d ++
        "  Health Status: ".toList ++ d.HealthStatus) ++ ['\n'] := by
    unfold blockBody linesCat frontSix fieldLine
    simp [List.append_assoc]
  have hdk : ("ディスク ".toList : Str) = 'デ' :: "ィスク ".toList := by decide
  have hlead : pyDropLead (blockBody idx d) = blockBody idx d := by
    rw [hshape, hdk]
    simp only [List.cons_append, List.append_assoc]
    exact pyDropLead_cons_of_not_space (by decide)
  have hstrip0 : pyStrip (blockBody idx d) = pyDropTrail (blockBody idx d) := by
    unfold pyStrip
    rw [hlead]
  rw [hstrip0, hshape, pyDropTrail_append_ws (by decide : isPySpace '\n' = true)]
  by_cases hv : d.HealthStatus = []
  · rw [hv, List.append_nil]
    have hsp : ("  Health Status: ".toList : Str) = "  Health Status:".toList ++ [' '] := by
      decide
    rw [hsp, ← List.append_assoc, pyDropTrail_append_ws (by decide : isPySpace ' ' = true)]
    rw [pyDropTrail_eq_self]
    · have ht7 : tail7 d = "  Health Status:".toList := by
        unfold tail7
        rw [if_pos hv]
      rw [← frontSix_eq_catLines, ht7]
      have hcl : (":\n".toList : Str) = [':', '\n'] := by decide
      rw [hcl]
      simp [List.append_assoc]
    · apply lastNotSpace_append_right (by decide)
      intro c hc
      rw [show (("  Health Status:".toList : Str)).reverse.head? = some ':' from by decide] at hc
      cases hc
      decide
  · rw [pyDropTrail_eq_self]
    · have ht7 : tail7 d = "  Health Status: ".toList ++ d.HealthStatus := by
        unfold tail7
        rw [if_neg hv]
      rw [ht7, ← frontSix_eq_catLines]
      have hcl : (":\n".toList : Str) = [':', '\n'] := by decide
      rw [hcl]
      simp [List.append_assoc]
    · exact lastNotSpace_append_right hv (goodVal_lastNotSpace hHS.2)

/-- Reading one serialized block back yields exactly the record's seven
key/value pairs in order: the header line is skipped and each field line
contributes its stripped label and value. -/
theorem parseBlockLines_block (idx : Nat) (d : DiskInfo) (hd : goodRec d) :
    parseBlockLines (blockBody idx d) = toPairs d := by
  obtain ⟨hM, hDS, hI, hPH, hPC, hHW, hHS⟩ := hd
  obtain ⟨hdne, hdall⟩ := natDigits_digits idx
  unfold parseBlockLines
  rw [pyStrip_blockBody idx d ⟨hM, hDS, hI, hPH, hPC, hHW, hHS⟩]
  have hreshape : (("ディスク ".toList ++ natDigits idx) ++ ':' :: '\n' ::
      catLines (sixPairs d) (tail7 d) : Str) =
      (("ディスク ".toList ++ natDigits idx) ++ [':']) ++ '\n' ::
      catLines (sixPairs d) (tail7 d) := by
    simp [List.append_assoc]
  rw [hreshape]
  have hheadnl : '\n' ∉ (("ディスク ".toList ++ natDigits idx) ++ [':'] : Str) := by
    rw [List.mem_append, List.mem_append]
    rintro ((hc | hc) | hc)
    · revert hc; decide
    · exact digit_ne_nl (hdall _ hc) rfl
    · revert hc; decide
  have hsixnl : ∀ p ∈ sixPairs d, '\n' ∉ (p.1 ++ p.2 : Str) := by
    intro p hp
    simp only [sixPairs, List.mem_cons, List.not_mem_nil, or_false] at hp
    rcases hp with hp | hp | hp | hp | hp | hp <;> subst hp <;> dsimp only <;>
    · rw [List.mem_append]
      rintro (hc | hc)
      · revert hc; decide
      · first
        | exact hM.1 hc
        | exact hDS.1 hc
        | exact hI.1 hc
        | exact hPH.1 hc
        | exact hPC.1 hc
        | exact hHW.1 hc
  have htailnl : '\n' ∉ tail7 d := by
    unfold tail7
    split
    · decide
    · rw [List.mem_append]
      rintro (hc | hc)
      · revert hc; decide
      · exact hHS.1 hc
  rw [splitOnNl_append hheadnl, splitOnNl_catLines (sixPairs d) hsixnl htailnl]
  rw [List.foldl_cons, parseLineStep_header [] (natDigits idx) hdne hdall]
  simp only [sixPairs, List.map_cons, List.map_nil, List.cons_append, List.nil_append]
  have em1 : (' ' :: ' ' :: ("Model: ".toList ++ d.Model) : Str) =
      "  Model".toList ++ ':' :: ' ' :: d.Model := by
    rw [show (("  Model".toList ++ ':' :: ' ' :: d.Model) : Str) =
      (' ' :: ' ' :: "Model: ".toList) ++ d.Model from by simp [List.append_assoc]]
    simp
  have em2 : (' ' :: ' ' :: ("Disk Size: ".toList ++ d.DiskSize) : Str) =
      "  Disk Size".toList ++ ':' :: ' ' :: d.DiskSize := by
    rw [show (("  Disk Size".toList ++ ':' :: ' ' :: d.DiskSize) : Str) =
      (' ' :: ' ' :: "Disk Size: ".toList) ++ d.DiskSize from by simp [List.append_assoc]]
    simp
  have em3 : (' ' :: ' ' :: ("Interface: ".toList ++ d.Interface) : Str) =
      "  Interface".toList ++ ':' :: ' ' :: d.Interface := by
    rw [show (("  Interface".toList ++ ':' :: ' ' :: d.Interface) : Str) =
      (' ' :: ' ' :: "Interface: ".toList) ++ d.Interface from by simp [List.append_assoc]]
    simp
  have em4 : (' ' :: ' ' :: ("Power On Hours: ".toList ++ d.PowerOnHours) : Str) =
      "  Power On Hours".toList ++ ':' :: ' ' :: d.PowerOnHours := by
    rw [show (("  Power On Hours".toList ++ ':' :: ' ' :: d.PowerOnHours) : Str) =
      (' ' :: ' ' :: "Power On Hours: ".toList) ++ d.PowerOnHours from by
        simp [List.append_assoc]]
    simp
  have em5 : (' ' :: ' ' :: ("Power On Count: ".toList ++ d.PowerOnCount) : Str) =
      "  Power On Count".toList ++ ':' :: ' ' :: d.PowerOnCount := by
    rw [show (("  Power On Count".toList ++ ':' :: ' ' :: d.PowerOnCount) : Str) =
      (' ' :: ' ' :: "Power On Count: ".toList) ++ d.PowerOnCount from by
        simp [List.append_assoc]]
    simp
  have em6 : (' ' :: ' ' :: ("Host Writes: ".toList ++ d.HostWrites) : Str) =
      "  Host Writes".toList ++ ':' :: ' ' :: d.HostWrites := by
    rw [show (("  Host Writes".toList ++ ':' :: ' ' :: d.HostWrites) : Str) =
      (' ' :: ' ' :: "Host Writes: ".toList) ++ d.HostWrites from by
        simp [List.append_assoc]]
    simp
  rw [List.foldl_cons, em1,
    parseLineStep_field [] "  Model".toList "Model".toList d.Model
      (by decide) (by decide) (by decide) hM.2
      (fun p hp => absurd hp (List.not_mem_nil p)),
    List.nil_append]
  rw [List.foldl_cons, em2,
    parseLineStep_field _ "  Disk Size".toList "Disk Size".toList d.DiskSize
      (by decide) (by decide) (by decide) hDS.2
      (by
        intro p hp
        simp only [List.mem_singleton] at hp
        subst hp
        dsimp only
        decide)]
  rw [List.foldl_cons, em3,
    parseLineStep_field _ "  Interface".toList "Interface".toList d.Interface
      (by decide) (by decide) (by decide) hI.2
      (by
        intro p hp
        simp only [List.mem_append, List.mem_singleton, List.mem_cons,
          List.not_mem_nil, or_false] at hp
        rcases hp with hp | hp <;> subst hp <;> dsimp only <;> decide)]
  rw [List.foldl_cons, em4,
    parseLineStep_field _ "  Power On Hours".toList "Power On Hours".toList d.PowerOnHours
      (by decide) (by decide) (by decide) hPH.2
      (by
        intro p hp
        simp only [List.mem_append, List.mem_singleton, List.mem_cons,
          List.not_mem_nil, or_false] at hp
        rcases hp with (hp | hp) | hp <;> subst hp <;> dsimp only <;> decide)]
  rw [List.foldl_cons, em5,
    parseLineStep_field _ "  Power On Count".toList "Power On Count".toList d.PowerOnCount
      (by decide) (by decide) (by decide) hPC.2
      (by
        intro p hp
        simp only [List.mem_append, List.mem_singleton, List.mem_cons,
          List.not_mem_nil, or_false] at hp
        rcases hp with ((hp | hp) | hp) | hp <;> subst hp <;> dsimp only <;> decide)]
  rw [List.foldl_cons, em6,
    parseLineStep_field _ "  Host Writes".toList "Host Writes".toList d.HostWrites
      (by decide) (by decide) (by decide) hHW.2
      (by
        intro p hp
        simp only [List.mem_append, List.mem_singleton, List.mem_cons,
          List.not_mem_nil, or_false] at hp
        rcases hp with (((hp | hp) | hp) | hp) | hp <;> subst hp <;> dsimp only <;> decide)]
  rw [List.foldl_cons]
  have hlast : parseLineStep
      ((((([("Model".toList, d.Model)] ++ [("Disk Size".toList, d.DiskSize)]) ++
        [("Interface".toList, d.Interface)]) ++ [("Power On Hours".toList, d.PowerOnHours)]) ++
        [("Power On Count".toList, d.PowerOnCount)]) ++ [("Host Writes".toList, d.HostWrites)])
      (tail7 d) =
      (((((([("Model".toList, d.Model)] ++ [("Disk Size".toList, d.DiskSize)]) ++
        [("Interface".toList, d.Interface)]) ++ [("Power On Hours".toList, d.PowerOnHours)]) ++
        [("Power On Count".toList, d.PowerOnCount)]) ++ [("Host Writes".toList, d.HostWrites)]) ++
        [("Health Status".toList, d.HealthStatus)]) := by
    have hins : ∀ p ∈ ((((([("Model".toList, d.Model)] ++ [("Disk Size".toList, d.DiskSize)]) ++
        [("Interface".toList, d.Interface)]) ++ [("Power On Hours".toList, d.PowerOnHours)]) ++
        [("Power On Count".toList, d.PowerOnCount)]) ++ [("Host Writes".toList, d.HostWrites)]),
        p.1 ≠ ("Health Status".toList : Str) := by
      intro p hp
      simp only [List.mem_append, List.mem_singleton, List.mem_cons,
        List.not_mem_nil, or_false] at hp
      rcases hp with ((((hp | hp) | hp) | hp) | hp) | hp <;> subst hp <;> dsimp only <;> decide
    by_cases hv : d.HealthStatus = []
    · have ht7 : tail7 d = "  Health Status".toList ++ [':'] := by
        unfold tail7
        rw [if_pos hv]
        decide
      rw [ht7, parseLineStep_field_nil _ "  Health Status".toList "Health Status".toList
        (by decide) (by decide) (by decide) hins, hv]
    · have ht7 : tail7 d = "  Health Status".toList ++ ':' :: ' ' :: d.HealthStatus := by
        unfold tail7
        rw [if_neg hv]
        rw [show (("  Health Status".toList ++ ':' :: ' ' :: d.HealthStatus) : Str) =
          ("  Health Status".toList ++ [':', ' ']) ++ d.HealthStatus from by
            simp [List.append_assoc]]
        rw [show ("  Health Status: ".toList : Str) =
          "  Health Status".toList ++ [':', ' '] from by decide]
      rw [ht7, parseLineStep_field _ "  Health Status".toList "Health Status".toList
        d.HealthStatus (by decide) (by decide) (by decide) hHS.2 hins]
  rw [hlast]
  rw [List.foldl_nil]
  simp [toPairs]

/-- Mapping the per-block reader over the serialized blocks recovers the
records' pair lists. -/
theorem map_parseBlockLines_blocksOf :
    ∀ (l : List DiskInfo) (idx : Nat), (∀ d ∈ l, goodRec d) →
    (blocksOf idx l).map parseBlockLines = l.map toPairs := by
  intro l
  induction l with
  | nil => intro idx _; rfl
  | cons d ds' ih =>
    intro idx hl
    rw [show blocksOf idx (d :: ds') = blockBody idx d :: blocksOf (idx + 1) ds' from rfl]
    rw [List.map_cons, List.map_cons]
    rw [parseBlockLines_block idx d (hl d (List.mem_cons_self _ _))]
    rw [ih (idx + 1) (fun x hx => hl x (List.mem_cons_of_mem _ hx))]

/-- C4: writing any report whose records have the shape the parser produces
(single-line, stripped field values) with save_storage_info, then reading
the artifact text back with get_storage_info's persisted-format grammar,
reproduces exactly the same records as label/value pair lists, the
per-device header lines being excluded. -/
theorem C4_write_read_roundtrip (ds : List DiskInfo) (h : ∀ d ∈ ds, goodRec d) :
    get_storage_info_parse (save_storage_info_text ds) = ds.map toPairs := by
  unfold get_storage_info_parse save_storage_info_text
  rw [disk_info_findall_save ds h 1]
  exact map_parseBlockLines_blocksOf ds 1 h

/-- Decidability of the value shape, for concrete witnesses. -/
instance goodVal_decidable (v : Str) : Decidable (goodVal v) := by
  unfold goodVal
  infer_instance

/-- Decidability of the record shape, for concrete witnesses. -/
instance goodRec_decidable (d : DiskInfo) : Decidable (goodRec d) := by
  unfold goodRec
  infer_instance

/-- A two-record report for the round-trip witness, one record with a
sentinel field. -/
def exReport : List DiskInfo := [exRecord, exRecordMissing]

/-- Witness for C4 at a concrete two-record report. -/
theorem C4_write_read_roundtrip_witness :
    get_storage_info_parse (save_storage_info_text exReport) = exReport.map toPairs :=
  C4_write_read_roundtrip exReport (by decide)

/-- Witness for C5 at a concrete input with no report markers. -/
theorem C5_parse_empty_on_missing_markers_witness :
    get_storage_log "a".toList = [] :=
  (C5_parse_empty_on_missing_markers "a".toList).1 (by decide)
